import Mathlib

/-!
Shallow embedding of src/reddit_scraper.py (class RedditScraper).

Modelling conventions:
* Python strings that undergo character-level processing (cleaning, URL
  extraction, substring and suffix tests) are modelled as List Char;
  post identifiers and enumeration-like values as String.  Only the
  ASCII fragment of the regex classes is modelled.
* Wall-clock times (time.time()) are rationals, seconds since epoch.
* A praw Submission handle is the Post structure holding exactly the
  attributes the script reads; galleryData = none models the attribute
  being absent or falsy (the hasattr-and-truthiness test at line 95).
* A fallible external call is an Option: none means the call, or any
  lazy attribute access inside the corresponding try block, raised an
  exception, which the script catches and logs.  Logging itself is a
  side effect with no bearing on state and is not modelled.
* The dictionaries post_id_to_content and post_tracking_start are
  association lists with Python dict semantics: assigning an existing
  key updates it in place, a new key is appended at the end, and del
  removes the key's entry.
* The two long-running loops (the stream thread and the periodic
  check loop of main) are modelled as an interleaving of atomic steps:
  one stream-loop body iteration (lines 235-244) or one full
  check_for_removals call (lines 252-304).  The rate limiter is pure
  scheduling delay folded into the fetch effect.
-/

/-- Character class kept by the substitution at line 61: word characters
(ASCII letters, digits, underscore), whitespace, and the punctuation
set dot, comma, bang, question mark, hyphen, colon, slash.  Everything
else is deleted by the substitution. -/
def keepChar (c : Char) : Bool :=
  c.isAlphanum || c = '_' || c.isWhitespace ||
    c = '.' || c = ',' || c = '!' || c = '?' || c = '-' || c = ':' || c = '/'

/-- Helper for Python str.split with no argument: split on whitespace
runs, dropping empty pieces.  The accumulator holds the current word
reversed. -/
def splitWordsAux : List Char → List Char → List (List Char)
  | [], acc => if acc = [] then [] else [acc.reverse]
  | c :: rest, acc =>
    if c.isWhitespace then
      if acc = [] then splitWordsAux rest []
      else acc.reverse :: splitWordsAux rest []
    else splitWordsAux rest (c :: acc)

/-- Python text.split() with no argument. -/
def splitWords (l : List Char) : List (List Char) :=
  splitWordsAux l []

/-- Python ' '.join(words): interleave single spaces. -/
def joinWords : List (List Char) → List Char
  | [] => []
  | [w] => w
  | w :: ws => w ++ ' ' :: joinWords ws

/-- Embedding of RedditScraper._clean_text (lines 51-65): empty input
returns empty; otherwise delete every character outside keepChar, then
normalize whitespace by split-and-rejoin.  The final strip is a no-op
after the join.  The URL list extracted at line 57 is dead code (bound
to a variable that is never used) and has no effect on the result. -/
def cleanText (text : List Char) : List Char :=
  if text = [] then []
  else joinWords (splitWords (text.filter keepChar))

/-- The literal characters of the regex head: h, t, t, p. -/
def httpChars : List Char := ['h', 't', 't', 'p']

/-- Fuel-indexed worker for the URL scan: at each position, if the
literal http matches, consume the following non-whitespace run (which
must be non-empty) as a match and continue after it, else advance one
character.  Every step strictly shortens the list, so fuel exceeding
the input length never runs out. -/
def findallHttpAux : Nat → List Char → List (List Char)
  | 0, _ => []
  | _ + 1, [] => []
  | fuel + 1, c :: rest =>
    if httpChars.isPrefixOf (c :: rest) then
      if (rest.drop 3).takeWhile (fun ch => !ch.isWhitespace) = [] then
        findallHttpAux fuel rest
      else (httpChars ++ (rest.drop 3).takeWhile (fun ch => !ch.isWhitespace)) ::
        findallHttpAux fuel ((rest.drop 3).dropWhile (fun ch => !ch.isWhitespace))
    else findallHttpAux fuel rest

/-- Embedding of re.findall with the pattern used at lines 57, 145,
146, 155: the literal http followed by one or more non-whitespace
characters, greedy, scanning left to right with non-overlapping
matches. -/
def findallHttp (l : List Char) : List (List Char) :=
  findallHttpAux (l.length + 1) l

/-- Does the character list contain the pattern as a contiguous
sublist?  Models the Python expression pat in s on strings. -/
def containsSub (l pat : List Char) : Bool :=
  match l with
  | [] => pat.isEmpty
  | c :: rest => pat.isPrefixOf (c :: rest) || containsSub rest pat

/-- Python url.endswith(tuple): true when any listed ending is a suffix. -/
def endsWithAny (l : List Char) (ends : List (List Char)) : Bool :=
  ends.any (fun e => e.isSuffixOf l)

/-- The praw Submission handle: exactly the attributes the script
reads.  galleryData is some items when the gallery_data attribute is
present and truthy (line 95), none otherwise. -/
structure Post where
  id : String
  title : List Char
  selftext : List Char
  url : List Char
  isSelf : Bool
  isVideo : Bool
  galleryData : Option (List String)
  score : Int
  numComments : Int
  removedByCategory : Option String
  removalReason : Option String
  removedBy : Option String
  bannedBy : Option String
  authorIsNone : Bool
  approvedBy : String
  approvedAtUtc : Option ℚ
deriving DecidableEq

/-- The static image extensions tested at line 108. -/
def imageExts : List (List Char) :=
  [".jpg".toList, ".jpeg".toList, ".png".toList, ".gif".toList]

def imgurHost : List Char := "imgur.com".toList

def reddItHost : List Char := "redd.it".toList

def youtubeHost : List Char := "youtube.com".toList

def youtuBeHost : List Char := "youtu.be".toList

/-- Embedding of the media_type computation of _get_media_info (lines
87-119).  The branch order and the Python operator precedence at line
111 (imgur, or redd.it and not is_video) are kept exactly: gallery is
tested first, then, for a non-self post with a non-empty URL, image
extension, image hosts, video hosts or the video flag, else link; every
remaining post keeps the initial value text. -/
def getMediaType (p : Post) : String :=
  if p.galleryData.isSome then "gallery"
  else if !p.isSelf && !p.url.isEmpty then
    if endsWithAny p.url imageExts then "image"
    else if containsSub p.url imgurHost || (containsSub p.url reddItHost && !p.isVideo) then
      "image"
    else if containsSub p.url youtubeHost || containsSub p.url youtuBeHost || p.isVideo then
      "video"
    else "link"
  else "text"

/-- Modelled from the spec sentence of claim C7, as an ordered
first-match rule list in the order the sentence states it: self-post
is text; URL ending in a static-image extension or on a known image
host (the hosts the program knows: imgur.com, redd.it) is image;
gallery metadata present is gallery; known video host (youtube.com,
youtu.be) or flagged as video is video; everything else is link.
This is the comparison point for the refinement claim, not source
code. -/
def claimMediaPolicy (p : Post) : String :=
  if p.isSelf then "text"
  else if endsWithAny p.url imageExts || containsSub p.url imgurHost ||
      containsSub p.url reddItHost then "image"
  else if p.galleryData.isSome then "gallery"
  else if containsSub p.url youtubeHost || containsSub p.url youtuBeHost ||
      p.isVideo then "video"
  else "link"

/-- The classification the code actually implements, written as a flat
first-match rule list (the amended form of claim C7): gallery metadata
wins outright; then a non-self post with a non-empty URL is image on a
static-image extension, on imgur.com, or on redd.it when not flagged
video; else video on youtube.com, youtu.be, or the video flag; else
link; self posts and posts without a URL are text. -/
def amendedMediaPolicy (p : Post) : String :=
  if p.galleryData.isSome then "gallery"
  else if (!p.isSelf && !p.url.isEmpty) &&
      (endsWithAny p.url imageExts || containsSub p.url imgurHost ||
        (containsSub p.url reddItHost && !p.isVideo)) then "image"
  else if (!p.isSelf && !p.url.isEmpty) &&
      (containsSub p.url youtubeHost || containsSub p.url youtuBeHost ||
        p.isVideo) then "video"
  else if !p.isSelf && !p.url.isEmpty then "link"
  else "text"

/-- One collected post record: the dictionary built by
collect_post_data (lines 185-216), restricted to the fields the claims
reach.  hours_tracked and timestamp_checked are absent from the dict
until the first successful removal check writes them, hence Option.
The comments list, permalink, subreddit rules and the remaining
always-present metadata fields do not influence any claim and are
omitted; title and text hold the cleaned strings, postLength and
titleLength the raw lengths (lines 202-203). -/
structure PostRecord where
  id : String
  title : List Char
  text : List Char
  score : Int
  numComments : Int
  postLength : Nat
  titleLength : Nat
  mediaType : String
  isRemoved : Bool
  removalReason : Option String
  removedBy : Option String
  rawRemovedByCategory : Option String
  rawBannedBy : Option String
  rawAuthorIsNone : Bool
  rawSelftextValue : Option (List Char)
  approvedBy : String
  approvedAtUtc : Option ℚ
  timestampCollected : ℚ
  timestampChecked : Option ℚ
  hoursTracked : Option ℚ
deriving DecidableEq

/-- The record collect_post_data builds from a post handle at time now
(lines 185-216), for the modelled fields. -/
def buildRecord (p : Post) (now : ℚ) : PostRecord :=
  { id := p.id
    title := cleanText p.title
    text := cleanText p.selftext
    score := p.score
    numComments := p.numComments
    postLength := p.selftext.length
    titleLength := p.title.length
    mediaType := getMediaType p
    isRemoved := p.removedByCategory.isSome
    removalReason := p.removalReason
    removedBy := p.removedBy
    rawRemovedByCategory := p.removedByCategory
    rawBannedBy := p.bannedBy
    rawAuthorIsNone := p.authorIsNone
    rawSelftextValue :=
      if p.selftext = "[removed]".toList ∨ p.selftext = "[deleted]".toList then
        some p.selftext
      else none
    approvedBy := p.approvedBy
    approvedAtUtc := p.approvedAtUtc
    timestampCollected := now
    timestampChecked := none
    hoursTracked := none }

/-- The fresh state a removal-check fetch reads off the re-fetched
submission (the attribute accesses at lines 275-283). -/
structure FetchInfo where
  removedByCategory : Option String
  removalReason : Option String
  removedBy : Option String
  bannedBy : Option String
  authorIsNone : Bool
  selftext : List Char
  approvedBy : String
  approvedAtUtc : Option ℚ
deriving DecidableEq

/-- The in-place cached_data.update at lines 274-286: overwrite the
removal fields, stamp timestamp_checked, and set hours_tracked to the
elapsed time since tracking started, in hours.  Score and comment
count are not touched by this update. -/
def applyUpdate (cached : PostRecord) (f : FetchInfo) (currentTime trackingStart : ℚ) :
    PostRecord :=
  { cached with
    isRemoved := f.removedByCategory.isSome
    removalReason := f.removalReason
    removedBy := f.removedBy
    rawRemovedByCategory := f.removedByCategory
    rawBannedBy := f.bannedBy
    rawAuthorIsNone := f.authorIsNone
    rawSelftextValue :=
      if f.selftext = "[removed]".toList ∨ f.selftext = "[deleted]".toList then
        some f.selftext
      else none
    approvedBy := f.approvedBy
    approvedAtUtc := f.approvedAtUtc
    timestampChecked := some currentTime
    hoursTracked := some ((currentTime - trackingStart) / 3600) }

/-- Lookup in an association list, first matching key. -/
def mapLookup {α : Type} : List (String × α) → String → Option α
  | [], _ => none
  | (k, v) :: rest, j => if k = j then some v else mapLookup rest j

/-- Python dict assignment: update the first matching key in place,
append a new key at the end. -/
def mapInsert {α : Type} : List (String × α) → String → α → List (String × α)
  | [], k, v => [(k, v)]
  | (k1, v1) :: rest, k, v =>
    if k1 = k then (k, v) :: rest else (k1, v1) :: mapInsert rest k v

/-- Python del d[k]: remove the first matching key's entry. -/
def mapErase {α : Type} : List (String × α) → String → List (String × α)
  | [], _ => []
  | (k1, v1) :: rest, k =>
    if k1 = k then rest else (k1, v1) :: mapErase rest k

/-- Key sequence of an association list. -/
def keysOf {α : Type} (m : List (String × α)) : List String :=
  m.map Prod.fst

/-- Number of occurrences of a string in a list. -/
def countOcc : List String → String → Nat
  | [], _ => 0
  | x :: xs, k => (if x = k then 1 else 0) + countOcc xs k

/-- Removal of the first occurrence of a key from a key list; mirror of
mapErase on the key sequence. -/
def eraseKey : List String → String → List String
  | [], _ => []
  | x :: xs, k => if x = k then xs else x :: eraseKey xs k

/-- The mutable state of the RedditScraper instance that the two loops
share: the deduplication set collected_posts, the tracking map
post_id_to_content, the start-time map post_tracking_start, and the
finalized batch posts_data. -/
structure ScraperState where
  collectedPosts : List String
  postIdToContent : List (String × PostRecord)
  postTrackingStart : List (String × ℚ)
  postsData : List PostRecord
deriving DecidableEq

/-- The state right after RedditScraper.__init__. -/
def emptyState : ScraperState :=
  { collectedPosts := [], postIdToContent := [], postTrackingStart := [], postsData := [] }

/-- The tracking-duration constant set at line 25: 24 hours in seconds. -/
def trackingDuration : ℚ := 24 * 60 * 60

/-- One iteration of the stream loop body (lines 235-244) for a post
handle arriving at time now.  When ok is false, collect_post_data (or
the surrounding try) raised, so the item is skipped: nothing is
inserted anywhere and the id is not marked seen.  When the id is
already in collected_posts nothing happens at all.  Otherwise
collect_post_data stores the record and the start time (lines 219-220),
the stream loop redundantly re-stores the record (line 239) and marks
the id seen (line 240). -/
def streamStep (s : ScraperState) (p : Post) (now : ℚ) (ok : Bool) : ScraperState :=
  if p.id ∈ s.collectedPosts then s
  else if ok then
    { s with
      postIdToContent := mapInsert s.postIdToContent p.id (buildRecord p now)
      postTrackingStart := mapInsert s.postTrackingStart p.id now
      collectedPosts := p.id :: s.collectedPosts }
  else s

/-- The per-entry body of the check loop (lines 259-300) for snapshot
entry (k, v), whole body wrapped in try/except.  fetch k = none means
the re-fetch (the rate-limited submission call or any lazy attribute
access during the update) raised; the except at line 299 then leaves
every map untouched.  A missing start time (KeyError at line 261) is
likewise swallowed.  On timeout the entry is finalized as cached,
without consulting fetch at all; on a fetched removal the updated
record is finalized; otherwise the updated record replaces the cached
one.  The log argument is updated_data. -/
def checkEntry (td t : ℚ) (fetch : String → Option FetchInfo) (s : ScraperState)
    (log : List PostRecord) (k : String) (v : PostRecord) :
    ScraperState × List PostRecord :=
  match mapLookup s.postTrackingStart k with
  | none => (s, log)
  | some st =>
    if t - st > td then
      ({ s with
          postIdToContent := mapErase s.postIdToContent k
          postTrackingStart := mapErase s.postTrackingStart k },
        log ++ [v])
    else
      match fetch k with
      | none => (s, log)
      | some fi =>
        let updated := applyUpdate v fi t st
        if updated.isRemoved then
          ({ s with
              postIdToContent := mapErase s.postIdToContent k
              postTrackingStart := mapErase s.postTrackingStart k },
            log ++ [updated])
        else
          ({ s with postIdToContent := mapInsert s.postIdToContent k updated }, log)

/-- Fold of checkEntry over the snapshot list taken at line 258. -/
def processEntries (td t : ℚ) (fetch : String → Option FetchInfo) :
    List (String × PostRecord) → ScraperState → List PostRecord →
      ScraperState × List PostRecord
  | [], s, log => (s, log)
  | (k, v) :: rest, s, log =>
    let r := checkEntry td t fetch s log k v
    processEntries td t fetch rest r.1 r.2

/-- The check cycle proper: snapshot the tracking map, process every
entry, return the new state and updated_data. -/
def checkCycleCore (td t : ℚ) (fetch : String → Option FetchInfo) (s : ScraperState) :
    ScraperState × List PostRecord :=
  processEntries td t fetch s.postIdToContent s []

/-- Result of one full check_for_removals call.  raised records whether
an exception escaped the call: the only raise site reachable from it is
save_data (lines 302-304 are outside the per-entry try), and main's
loop at lines 465-467 has no handler, so raised = true means the
process dies. -/
structure CheckOutcome where
  state : ScraperState
  finalized : List PostRecord
  raised : Bool
deriving DecidableEq

/-- Embedding of check_for_removals (lines 252-304) followed by the
save_data it triggers.  If updated_data is non-empty it is extended
onto posts_data and save_data runs; saveOk models whether the file
writes succeed.  On success save_data clears posts_data (line 433); on
failure the exception propagates with posts_data still holding the
batch. -/
def checkForRemovals (td t : ℚ) (fetch : String → Option FetchInfo) (saveOk : Bool)
    (s : ScraperState) : CheckOutcome :=
  let r := checkCycleCore td t fetch s
  if r.2.isEmpty then { state := r.1, finalized := r.2, raised := false }
  else
    let s2 := { r.1 with postsData := r.1.postsData ++ r.2 }
    if saveOk then { state := { s2 with postsData := [] }, finalized := r.2, raised := false }
    else { state := s2, finalized := r.2, raised := true }

/-- One atomic step of the interleaved system: either one stream-loop
item or one whole check cycle. -/
inductive Step where
  | stream (p : Post) (now : ℚ) (ok : Bool)
  | check (t : ℚ) (fetch : String → Option FetchInfo) (saveOk : Bool)

/-- Run a step list, accumulating every record ever handed to the
finalized batch (the concatenation of all cycles' updated_data; the
batch itself is flushed and cleared by successful saves, so the
accumulator, not postsData, witnesses what was ever finalized). -/
def runTrace (td : ℚ) : ScraperState → List PostRecord → List Step →
    ScraperState × List PostRecord
  | s, log, [] => (s, log)
  | s, log, Step.stream p now ok :: rest => runTrace td (streamStep s p now ok) log rest
  | s, log, Step.check t fetch saveOk :: rest =>
    let o := checkForRemovals td t fetch saveOk s
    runTrace td o.state (log ++ o.finalized) rest

/-- The running minimum of save_data's engagement and length stats:
initialised to float inf (line 330, 334), folded with min over the
batch (lines 389, 391, 397, 399). -/
def statMin (l : List Int) : WithTop Int :=
  l.foldl (fun m x => min m (x : WithTop Int)) ⊤

/-- The running maximum: initialised to 0 (lines 330, 334), folded with
max over the batch (lines 390, 392, 398, 400). -/
def statMax (l : List Int) : Int :=
  l.foldl max 0

/-- The running total feeding the averages (lines 393-394, 401-402). -/
def statTotal (l : List Int) : Int :=
  l.foldl (· + ·) 0

/-- The average computed at lines 406-409: total divided by batch size. -/
def statAvg (l : List Int) : ℚ :=
  (statTotal l : ℚ) / (l.length : ℚ)

/-- Score column of a batch (line 397: post dict key score). -/
def scoreVals (ps : List PostRecord) : List Int :=
  ps.map (fun p => p.score)

/-- Comment-count column of a batch (line 399). -/
def commentVals (ps : List PostRecord) : List Int :=
  ps.map (fun p => p.numComments)

/-- Title-length column of a batch: save_data measures the stored
(cleaned) title (line 387). -/
def titleLenVals (ps : List PostRecord) : List Int :=
  ps.map (fun p => (p.title.length : Int))

/-- Body-length column of a batch (line 388). -/
def textLenVals (ps : List PostRecord) : List Int :=
  ps.map (fun p => (p.text.length : Int))

/-- Well-formedness of the two tracking maps, maintained by every
operation: identical key sequences, no duplicate keys, and every stored
record carries its own key as id. -/
abbrev WfMaps (s : ScraperState) : Prop :=
  keysOf s.postIdToContent = keysOf s.postTrackingStart ∧
    (keysOf s.postIdToContent).Nodup ∧
    ∀ kv ∈ s.postIdToContent, kv.2.id = kv.1

/-- Reachability invariant tying the maps, the dedup set and the
cumulative finalized log together. -/
abbrev Good (s : ScraperState) (log : List PostRecord) : Prop :=
  WfMaps s ∧
    (∀ k ∈ keysOf s.postIdToContent, k ∈ s.collectedPosts) ∧
    (∀ r ∈ log, r.id ∈ s.collectedPosts) ∧
    ∀ k ∈ log.map (fun r => r.id),
      countOcc (log.map (fun r => r.id)) k + countOcc (keysOf s.postIdToContent) k ≤ 1

/-- Every stored record's id equals its key, over a snapshot list. -/
abbrev EntryIds (l : List (String × PostRecord)) : Prop :=
  ∀ kv ∈ l, kv.2.id = kv.1

/-- A finalized identifier: already in the dedup set, gone from both
maps.  This situation is stable under every further step. -/
abbrev EvictedInv (s : ScraperState) (k : String) : Prop :=
  k ∈ s.collectedPosts ∧ mapLookup s.postIdToContent k = none ∧
    mapLookup s.postTrackingStart k = none

/-- A sample post handle used by concrete witnesses. -/
def post1 : Post :=
  { id := "p1"
    title := "hello world".toList
    selftext := "a body".toList
    url := []
    isSelf := true
    isVideo := false
    galleryData := none
    score := 10
    numComments := 3
    removedByCategory := none
    removalReason := none
    removedBy := none
    bannedBy := none
    authorIsNone := false
    approvedBy := "None"
    approvedAtUtc := none }

/-- A second sample post handle. -/
def post2 : Post :=
  { post1 with id := "p2", score := 4, numComments := 1 }

/-- A gallery-marked self post: the input where code and stated policy
of claim C7 disagree. -/
def galleryPost : Post :=
  { post1 with id := "g1", isSelf := true, galleryData := some ["m1"] }

/-- A fetch result showing the post still up. -/
def fetchAlive : FetchInfo :=
  { removedByCategory := none
    removalReason := none
    removedBy := none
    bannedBy := none
    authorIsNone := false
    selftext := "a body".toList
    approvedBy := "None"
    approvedAtUtc := none }

/-- A fetch result showing the post removed by a moderator. -/
def fetchRemoved : FetchInfo :=
  { fetchAlive with
    removedByCategory := some "moderator"
    removalReason := some "rule1"
    selftext := "[removed]".toList }

/-- State with post1 admitted at time 0. -/
def sampleState1 : ScraperState :=
  streamStep emptyState post1 0 true

/-- The trace of the timeout scenario behind claim C4: admit p1 at
t = 0, successfully check it at t = 100 (still up), then run a check
at t = 90000, past the 24-hour ceiling. -/
def traceC4 : List Step :=
  [Step.stream post1 0 true,
    Step.check 100 (fun _ => some fetchAlive) true,
    Step.check 90000 (fun _ => none) true]

/-- Minimal records for the statistics claims. -/
def statRecord (i : String) (sc : Int) : PostRecord :=
  { id := i
    title := "t".toList
    text := "x".toList
    score := sc
    numComments := 2
    postLength := 1
    titleLength := 1
    mediaType := "text"
    isRemoved := false
    removalReason := none
    removedBy := none
    rawRemovedByCategory := none
    rawBannedBy := none
    rawAuthorIsNone := false
    rawSelftextValue := none
    approvedBy := "None"
    approvedAtUtc := none
    timestampCollected := 0
    timestampChecked := none
    hoursTracked := none }

/-- The three-post batch of the scenario in claim C8. -/
def batchC8 : List PostRecord :=
  [statRecord "a" 10, statRecord "b" (-2), statRecord "c" 7]

/-! Association-list and counting lemmas. -/

theorem keysOf_cons {α : Type} (k1 : String) (v1 : α) (rest : List (String × α)) :
    keysOf ((k1, v1) :: rest) = k1 :: keysOf rest := rfl

theorem countOcc_append (l1 l2 : List String) (k : String) :
    countOcc (l1 ++ l2) k = countOcc l1 k + countOcc l2 k := by
  induction l1 with
  | nil => simp [countOcc]
  | cons x xs ih =>
    show countOcc (x :: (xs ++ l2)) k = _
    simp only [countOcc, ih]
    omega

theorem countOcc_eq_zero {l : List String} {k : String} :
    countOcc l k = 0 ↔ k ∉ l := by
  induction l with
  | nil => simp [countOcc]
  | cons x xs ih =>
    simp only [countOcc, List.mem_cons]
    by_cases hx : x = k
    · subst hx
      simp
    · have hkx : ¬ k = x := fun h => hx h.symm
      simp [hx, hkx, ih]

theorem countOcc_pos_of_mem {l : List String} {k : String} (h : k ∈ l) :
    1 ≤ countOcc l k := by
  by_contra hc
  have h0 : countOcc l k = 0 := by omega
  exact (countOcc_eq_zero.mp h0) h

theorem nodup_countOcc_le_one {l : List String} (h : l.Nodup) (k : String) :
    countOcc l k ≤ 1 := by
  induction l with
  | nil => simp [countOcc]
  | cons x xs ih =>
    have hx : x ∉ xs := (List.nodup_cons.mp h).1
    have hxs : xs.Nodup := (List.nodup_cons.mp h).2
    by_cases hk : x = k
    · subst hk
      have h0 : countOcc xs x = 0 := countOcc_eq_zero.mpr hx
      simp [countOcc, h0]
    · simp only [countOcc, if_neg hk]
      simpa using ih hxs

theorem nodup_countOcc_mem {l : List String} (h : l.Nodup) {k : String} (hm : k ∈ l) :
    countOcc l k = 1 := by
  have h1 := countOcc_pos_of_mem hm
  have h2 := nodup_countOcc_le_one h k
  omega

theorem mapLookup_eq_none {α : Type} {m : List (String × α)} {k : String} :
    mapLookup m k = none ↔ k ∉ keysOf m := by
  induction m with
  | nil => simp [mapLookup, keysOf]
  | cons kv rest ih =>
    obtain ⟨k1, v1⟩ := kv
    rw [keysOf_cons]
    by_cases h1 : k1 = k
    · subst h1
      simp [mapLookup]
    · have hk : ¬ k = k1 := fun h => h1 h.symm
      rw [mapLookup, if_neg h1]
      simp only [List.mem_cons]
      constructor
      · intro h hc
        rcases hc with hc | hc
        · exact hk hc
        · exact (ih.mp h) hc
      · intro h
        exact ih.mpr (fun hc => h (Or.inr hc))

theorem mapLookup_isSome {α : Type} {m : List (String × α)} {k : String} :
    (mapLookup m k).isSome ↔ k ∈ keysOf m := by
  rcases h : mapLookup m k with _ | v
  · simp [mapLookup_eq_none.mp h]
  · have hm : k ∈ keysOf m := by
      by_contra hc
      rw [mapLookup_eq_none.mpr hc] at h
      exact Option.noConfusion h
    simp [hm]

theorem mapLookup_mem {α : Type} {m : List (String × α)} {k : String} {v : α}
    (h : mapLookup m k = some v) : (k, v) ∈ m := by
  induction m with
  | nil => simp [mapLookup] at h
  | cons kv rest ih =>
    obtain ⟨k1, v1⟩ := kv
    by_cases h1 : k1 = k
    · subst h1
      rw [mapLookup, if_pos rfl] at h
      have hv : v1 = v := by injection h
      simp [hv]
    · rw [mapLookup, if_neg h1] at h
      exact List.mem_cons_of_mem _ (ih h)

theorem mapLookup_insert_self {α : Type} (m : List (String × α)) (k : String) (v : α) :
    mapLookup (mapInsert m k v) k = some v := by
  induction m with
  | nil => simp [mapInsert, mapLookup]
  | cons kv rest ih =>
    obtain ⟨k1, v1⟩ := kv
    by_cases h1 : k1 = k
    · simp [mapInsert, h1, mapLookup]
    · simp [mapInsert, h1, mapLookup, ih]

theorem mapLookup_insert_ne {α : Type} (m : List (String × α)) {k j : String} (v : α)
    (h : j ≠ k) : mapLookup (mapInsert m k v) j = mapLookup m j := by
  induction m with
  | nil =>
    have : ¬ k = j := fun hc => h hc.symm
    simp [mapInsert, mapLookup, this]
  | cons kv rest ih =>
    obtain ⟨k1, v1⟩ := kv
    by_cases h1 : k1 = k
    · subst h1
      have h2 : ¬ k1 = j := fun hc => h hc.symm
      simp [mapInsert, mapLookup, h2]
    · by_cases h2 : k1 = j
      · subst h2
        simp [mapInsert, h1, mapLookup]
      · simp [mapInsert, h1, mapLookup, h2, ih]

theorem keysOf_insert_mem {α : Type} {m : List (String × α)} {k : String} (v : α)
    (h : k ∈ keysOf m) : keysOf (mapInsert m k v) = keysOf m := by
  induction m with
  | nil => simp [keysOf] at h
  | cons kv rest ih =>
    obtain ⟨k1, v1⟩ := kv
    rw [keysOf_cons] at h ⊢
    by_cases h1 : k1 = k
    · subst h1
      simp [mapInsert, keysOf_cons]
    · have h2 : k ∈ keysOf rest := by
        rcases List.mem_cons.mp h with h3 | h3
        · exact absurd h3.symm h1
        · exact h3
      simp only [mapInsert, if_neg h1, keysOf_cons]
      rw [ih h2]

theorem keysOf_insert_new {α : Type} {m : List (String × α)} {k : String} (v : α)
    (h : k ∉ keysOf m) : keysOf (mapInsert m k v) = keysOf m ++ [k] := by
  induction m with
  | nil => simp [mapInsert, keysOf]
  | cons kv rest ih =>
    obtain ⟨k1, v1⟩ := kv
    rw [keysOf_cons] at h
    have h1 : k1 ≠ k := fun hc => h (by simp [hc])
    have h2 : k ∉ keysOf rest := fun hc => h (by simp [hc])
    simp only [mapInsert, if_neg h1, keysOf_cons, List.cons_append]
    rw [ih h2]

theorem mem_mapInsert {α : Type} {m : List (String × α)} {k : String} {v : α}
    {kv : String × α} (h : kv ∈ mapInsert m k v) : kv = (k, v) ∨ kv ∈ m := by
  induction m with
  | nil => simpa [mapInsert] using h
  | cons kv1 rest ih =>
    obtain ⟨k1, v1⟩ := kv1
    have hstep : mapInsert ((k1, v1) :: rest) k v
        = if k1 = k then (k, v) :: rest else (k1, v1) :: mapInsert rest k v := rfl
    rw [hstep] at h
    by_cases h1 : k1 = k
    · rw [if_pos h1] at h
      rcases List.mem_cons.mp h with h2 | h2
      · exact Or.inl h2
      · exact Or.inr (List.mem_cons_of_mem _ h2)
    · rw [if_neg h1] at h
      rcases List.mem_cons.mp h with h2 | h2
      · exact Or.inr (by simp [h2])
      · rcases ih h2 with h3 | h3
        · exact Or.inl h3
        · exact Or.inr (List.mem_cons_of_mem _ h3)

theorem mem_mapErase {α : Type} {m : List (String × α)} {k : String}
    {kv : String × α} (h : kv ∈ mapErase m k) : kv ∈ m := by
  induction m with
  | nil => simpa [mapErase] using h
  | cons kv1 rest ih =>
    obtain ⟨k1, v1⟩ := kv1
    by_cases h1 : k1 = k
    · simp only [mapErase, if_pos h1] at h
      exact List.mem_cons_of_mem _ h
    · simp only [mapErase, if_neg h1, List.mem_cons] at h
      rcases h with h | h
      · simp [h]
      · exact List.mem_cons_of_mem _ (ih h)

theorem keysOf_mapErase {α : Type} (m : List (String × α)) (k : String) :
    keysOf (mapErase m k) = eraseKey (keysOf m) k := by
  induction m with
  | nil => rfl
  | cons kv rest ih =>
    obtain ⟨k1, v1⟩ := kv
    have hstep : mapErase ((k1, v1) :: rest) k
        = if k1 = k then rest else (k1, v1) :: mapErase rest k := rfl
    have hstep2 : eraseKey (k1 :: keysOf rest) k
        = if k1 = k then keysOf rest else k1 :: eraseKey (keysOf rest) k := rfl
    rw [keysOf_cons, hstep, hstep2]
    by_cases h1 : k1 = k
    · rw [if_pos h1, if_pos h1]
    · rw [if_neg h1, if_neg h1, keysOf_cons, ih]

theorem eraseKey_countOcc_ne {l : List String} {k j : String} (h : j ≠ k) :
    countOcc (eraseKey l k) j = countOcc l j := by
  induction l with
  | nil => simp [eraseKey]
  | cons x xs ih =>
    by_cases h1 : x = k
    · subst h1
      have h2 : ¬ x = j := fun hc => h hc.symm
      simp [eraseKey, countOcc, h2]
    · simp [eraseKey, h1, countOcc, ih]

theorem eraseKey_countOcc_self {l : List String} (h : l.Nodup) (k : String) :
    countOcc (eraseKey l k) k = 0 := by
  induction l with
  | nil => simp [eraseKey, countOcc]
  | cons x xs ih =>
    have hx : x ∉ xs := (List.nodup_cons.mp h).1
    have hxs : xs.Nodup := (List.nodup_cons.mp h).2
    by_cases h1 : x = k
    · subst h1
      simp [eraseKey, countOcc_eq_zero.mpr hx]
    · simp [eraseKey, h1, countOcc, ih hxs]

theorem eraseKey_subset {l : List String} {k j : String} (h : j ∈ eraseKey l k) :
    j ∈ l := by
  induction l with
  | nil => simpa [eraseKey] using h
  | cons x xs ih =>
    by_cases h1 : x = k
    · simp only [eraseKey, if_pos h1] at h
      exact List.mem_cons_of_mem _ h
    · simp only [eraseKey, if_neg h1, List.mem_cons] at h
      rcases h with h | h
      · simp [h]
      · exact List.mem_cons_of_mem _ (ih h)

theorem eraseKey_nodup {l : List String} (h : l.Nodup) (k : String) :
    (eraseKey l k).Nodup := by
  induction l with
  | nil => simp [eraseKey]
  | cons x xs ih =>
    have hx : x ∉ xs := (List.nodup_cons.mp h).1
    have hxs : xs.Nodup := (List.nodup_cons.mp h).2
    have hstep : eraseKey (x :: xs) k = if x = k then xs else x :: eraseKey xs k := rfl
    rw [hstep]
    by_cases h1 : x = k
    · simpa [h1] using hxs
    · rw [if_neg h1]
      exact List.nodup_cons.mpr ⟨fun hc => hx (eraseKey_subset hc), ih hxs⟩

theorem mapLookup_erase_self {α : Type} {m : List (String × α)} {k : String}
    (h : (keysOf m).Nodup) : mapLookup (mapErase m k) k = none := by
  rw [mapLookup_eq_none, keysOf_mapErase]
  intro hc
  have h1 := eraseKey_countOcc_self h k
  have h2 := countOcc_pos_of_mem hc
  omega

theorem mapLookup_erase_ne {α : Type} (m : List (String × α)) {k j : String}
    (h : j ≠ k) : mapLookup (mapErase m k) j = mapLookup m j := by
  induction m with
  | nil => simp [mapErase]
  | cons kv rest ih =>
    obtain ⟨k1, v1⟩ := kv
    by_cases h1 : k1 = k
    · subst h1
      have h2 : ¬ k1 = j := fun hc => h hc.symm
      simp [mapErase, mapLookup, h2]
    · by_cases h2 : k1 = j
      · subst h2
        simp [mapErase, h1, mapLookup]
      · simp [mapErase, h1, mapLookup, h2, ih]

theorem mem_lookup_of_nodup {α : Type} {m : List (String × α)} {k : String} {v : α}
    (h : (keysOf m).Nodup) (hm : (k, v) ∈ m) : mapLookup m k = some v := by
  induction m with
  | nil => simp at hm
  | cons kv rest ih =>
    obtain ⟨k1, v1⟩ := kv
    rw [keysOf_cons] at h
    have hx : k1 ∉ keysOf rest := (List.nodup_cons.mp h).1
    have hrest : (keysOf rest).Nodup := (List.nodup_cons.mp h).2
    rcases List.mem_cons.mp hm with h1 | h1
    · injection h1 with hk hv
      subst hk
      subst hv
      rw [mapLookup, if_pos rfl]
    · by_cases h2 : k1 = k
      · subst h2
        exfalso
        exact hx (by simpa [keysOf] using List.mem_map_of_mem Prod.fst h1)
      · rw [mapLookup, if_neg h2]
        exact ih hrest h1

/-! Branch equations and frame lemmas for the step functions. -/

theorem applyUpdate_id (v : PostRecord) (fi : FetchInfo) (t st : ℚ) :
    (applyUpdate v fi t st).id = v.id := rfl

theorem applyUpdate_isRemoved (v : PostRecord) (fi : FetchInfo) (t st : ℚ) :
    (applyUpdate v fi t st).isRemoved = fi.removedByCategory.isSome := rfl

theorem applyUpdate_hoursTracked (v : PostRecord) (fi : FetchInfo) (t st : ℚ) :
    (applyUpdate v fi t st).hoursTracked = some ((t - st) / 3600) := rfl

theorem checkEntry_noTrack (td t : ℚ) (fetch : String → Option FetchInfo)
    (s : ScraperState) (log : List PostRecord) (k : String) (v : PostRecord)
    (h : mapLookup s.postTrackingStart k = none) :
    checkEntry td t fetch s log k v = (s, log) := by
  simp [checkEntry, h]

theorem checkEntry_timeout (td t : ℚ) (fetch : String → Option FetchInfo)
    (s : ScraperState) (log : List PostRecord) (k : String) (v : PostRecord) {st : ℚ}
    (h : mapLookup s.postTrackingStart k = some st) (h2 : t - st > td) :
    checkEntry td t fetch s log k v =
      ({ s with
          postIdToContent := mapErase s.postIdToContent k
          postTrackingStart := mapErase s.postTrackingStart k }, log ++ [v]) := by
  simp [checkEntry, h, h2]

theorem checkEntry_fetchNone (td t : ℚ) (fetch : String → Option FetchInfo)
    (s : ScraperState) (log : List PostRecord) (k : String) (v : PostRecord) {st : ℚ}
    (h : mapLookup s.postTrackingStart k = some st) (h2 : ¬ t - st > td)
    (h3 : fetch k = none) :
    checkEntry td t fetch s log k v = (s, log) := by
  simp [checkEntry, h, h2, h3]

theorem checkEntry_removed (td t : ℚ) (fetch : String → Option FetchInfo)
    (s : ScraperState) (log : List PostRecord) (k : String) (v : PostRecord)
    {st : ℚ} {fi : FetchInfo}
    (h : mapLookup s.postTrackingStart k = some st) (h2 : ¬ t - st > td)
    (h3 : fetch k = some fi) (h4 : fi.removedByCategory.isSome = true) :
    checkEntry td t fetch s log k v =
      ({ s with
          postIdToContent := mapErase s.postIdToContent k
          postTrackingStart := mapErase s.postTrackingStart k },
        log ++ [applyUpdate v fi t st]) := by
  simp [checkEntry, h, h2, h3, applyUpdate_isRemoved, h4]

theorem checkEntry_alive (td t : ℚ) (fetch : String → Option FetchInfo)
    (s : ScraperState) (log : List PostRecord) (k : String) (v : PostRecord)
    {st : ℚ} {fi : FetchInfo}
    (h : mapLookup s.postTrackingStart k = some st) (h2 : ¬ t - st > td)
    (h3 : fetch k = some fi) (h4 : fi.removedByCategory.isSome = false) :
    checkEntry td t fetch s log k v =
      ({ s with postIdToContent := mapInsert s.postIdToContent k (applyUpdate v fi t st) },
        log) := by
  simp [checkEntry, h, h2, h3, applyUpdate_isRemoved, h4]

theorem checkEntry_collected (td t : ℚ) (fetch : String → Option FetchInfo)
    (s : ScraperState) (log : List PostRecord) (k : String) (v : PostRecord) :
    (checkEntry td t fetch s log k v).1.collectedPosts = s.collectedPosts := by
  rcases hst : mapLookup s.postTrackingStart k with _ | st
  · rw [checkEntry_noTrack td t fetch s log k v hst]
  · by_cases htm : t - st > td
    · rw [checkEntry_timeout td t fetch s log k v hst htm]
    · rcases hf : fetch k with _ | fi
      · rw [checkEntry_fetchNone td t fetch s log k v hst htm hf]
      · rcases hrm : fi.removedByCategory.isSome with _ | _
        · rw [checkEntry_alive td t fetch s log k v hst htm hf hrm]
        · rw [checkEntry_removed td t fetch s log k v hst htm hf hrm]

theorem checkEntry_postsData (td t : ℚ) (fetch : String → Option FetchInfo)
    (s : ScraperState) (log : List PostRecord) (k : String) (v : PostRecord) :
    (checkEntry td t fetch s log k v).1.postsData = s.postsData := by
  rcases hst : mapLookup s.postTrackingStart k with _ | st
  · rw [checkEntry_noTrack td t fetch s log k v hst]
  · by_cases htm : t - st > td
    · rw [checkEntry_timeout td t fetch s log k v hst htm]
    · rcases hf : fetch k with _ | fi
      · rw [checkEntry_fetchNone td t fetch s log k v hst htm hf]
      · rcases hrm : fi.removedByCategory.isSome with _ | _
        · rw [checkEntry_alive td t fetch s log k v hst htm hf hrm]
        · rw [checkEntry_removed td t fetch s log k v hst htm hf hrm]

theorem checkEntry_frame (td t : ℚ) (fetch : String → Option FetchInfo)
    (s : ScraperState) (log : List PostRecord) (k : String) (v : PostRecord)
    {j : String} (hne : j ≠ k) :
    mapLookup (checkEntry td t fetch s log k v).1.postIdToContent j
        = mapLookup s.postIdToContent j ∧
      mapLookup (checkEntry td t fetch s log k v).1.postTrackingStart j
        = mapLookup s.postTrackingStart j := by
  rcases hst : mapLookup s.postTrackingStart k with _ | st
  · rw [checkEntry_noTrack td t fetch s log k v hst]
    exact ⟨rfl, rfl⟩
  · by_cases htm : t - st > td
    · rw [checkEntry_timeout td t fetch s log k v hst htm]
      exact ⟨mapLookup_erase_ne _ hne, mapLookup_erase_ne _ hne⟩
    · rcases hf : fetch k with _ | fi
      · rw [checkEntry_fetchNone td t fetch s log k v hst htm hf]
        exact ⟨rfl, rfl⟩
      · rcases hrm : fi.removedByCategory.isSome with _ | _
        · rw [checkEntry_alive td t fetch s log k v hst htm hf hrm]
          exact ⟨mapLookup_insert_ne _ _ hne, rfl⟩
        · rw [checkEntry_removed td t fetch s log k v hst htm hf hrm]
          exact ⟨mapLookup_erase_ne _ hne, mapLookup_erase_ne _ hne⟩

theorem checkEntry_log (td t : ℚ) (fetch : String → Option FetchInfo)
    (s : ScraperState) (log : List PostRecord) (k : String) (v : PostRecord) :
    (checkEntry td t fetch s log k v).2 = log ∨
      ∃ r, (checkEntry td t fetch s log k v).2 = log ++ [r] ∧ r.id = v.id := by
  rcases hst : mapLookup s.postTrackingStart k with _ | st
  · rw [checkEntry_noTrack td t fetch s log k v hst]
    exact Or.inl rfl
  · by_cases htm : t - st > td
    · rw [checkEntry_timeout td t fetch s log k v hst htm]
      exact Or.inr ⟨v, rfl, rfl⟩
    · rcases hf : fetch k with _ | fi
      · rw [checkEntry_fetchNone td t fetch s log k v hst htm hf]
        exact Or.inl rfl
      · rcases hrm : fi.removedByCategory.isSome with _ | _
        · rw [checkEntry_alive td t fetch s log k v hst htm hf hrm]
          exact Or.inl rfl
        · rw [checkEntry_removed td t fetch s log k v hst htm hf hrm]
          exact Or.inr ⟨applyUpdate v fi t st, rfl, rfl⟩

theorem checkEntry_filter_ne (td t : ℚ) (fetch : String → Option FetchInfo)
    (s : ScraperState) (log : List PostRecord) (k : String) (v : PostRecord)
    {j : String} (hne : v.id ≠ j) :
    ((checkEntry td t fetch s log k v).2).filter (fun r => r.id = j)
      = log.filter (fun r => r.id = j) := by
  rcases checkEntry_log td t fetch s log k v with h | ⟨r, hr, hid⟩
  · rw [h]
  · rw [hr, List.filter_append]
    have : r.id ≠ j := hid ▸ hne
    simp [this]

theorem processEntries_append (td t : ℚ) (fetch : String → Option FetchInfo)
    (l1 l2 : List (String × PostRecord)) (s : ScraperState) (log : List PostRecord) :
    processEntries td t fetch (l1 ++ l2) s log =
      processEntries td t fetch l2 (processEntries td t fetch l1 s log).1
        (processEntries td t fetch l1 s log).2 := by
  induction l1 generalizing s log with
  | nil => rfl
  | cons kv rest ih =>
    obtain ⟨k, v⟩ := kv
    show processEntries td t fetch (rest ++ l2) (checkEntry td t fetch s log k v).1
        (checkEntry td t fetch s log k v).2 = _
    rw [ih]
    rfl

theorem processEntries_collected (td t : ℚ) (fetch : String → Option FetchInfo)
    (l : List (String × PostRecord)) (s : ScraperState) (log : List PostRecord) :
    (processEntries td t fetch l s log).1.collectedPosts = s.collectedPosts := by
  induction l generalizing s log with
  | nil => rfl
  | cons kv rest ih =>
    obtain ⟨k, v⟩ := kv
    show (processEntries td t fetch rest (checkEntry td t fetch s log k v).1
        (checkEntry td t fetch s log k v).2).1.collectedPosts = _
    rw [ih, checkEntry_collected]

theorem processEntries_postsData (td t : ℚ) (fetch : String → Option FetchInfo)
    (l : List (String × PostRecord)) (s : ScraperState) (log : List PostRecord) :
    (processEntries td t fetch l s log).1.postsData = s.postsData := by
  induction l generalizing s log with
  | nil => rfl
  | cons kv rest ih =>
    obtain ⟨k, v⟩ := kv
    show (processEntries td t fetch rest (checkEntry td t fetch s log k v).1
        (checkEntry td t fetch s log k v).2).1.postsData = _
    rw [ih, checkEntry_postsData]

theorem processEntries_frame (td t : ℚ) (fetch : String → Option FetchInfo)
    {l : List (String × PostRecord)} (s : ScraperState) (log : List PostRecord)
    {j : String} (hk : j ∉ keysOf l) (hids : EntryIds l) :
    mapLookup (processEntries td t fetch l s log).1.postIdToContent j
        = mapLookup s.postIdToContent j ∧
      mapLookup (processEntries td t fetch l s log).1.postTrackingStart j
        = mapLookup s.postTrackingStart j ∧
      ((processEntries td t fetch l s log).2).filter (fun r => r.id = j)
        = log.filter (fun r => r.id = j) := by
  induction l generalizing s log with
  | nil => exact ⟨rfl, rfl, rfl⟩
  | cons kv rest ih =>
    obtain ⟨k, v⟩ := kv
    have hkj : j ≠ k := by
      intro hc
      exact hk (by simp [keysOf_cons, hc])
    have hkr : j ∉ keysOf rest := fun hc => hk (by simp [keysOf_cons, hc])
    have hvid : v.id ≠ j := by
      have : v.id = k := hids (k, v) (List.mem_cons_self _ _)
      rw [this]
      exact fun hc => hkj hc.symm
    have hidr : EntryIds rest := fun kv2 h2 => hids kv2 (List.mem_cons_of_mem _ h2)
    have hstep := checkEntry_frame td t fetch s log k v hkj
    have hfil := checkEntry_filter_ne td t fetch s log k v hvid
    show mapLookup (processEntries td t fetch rest (checkEntry td t fetch s log k v).1
        (checkEntry td t fetch s log k v).2).1.postIdToContent j = _ ∧ _
    obtain ⟨ih1, ih2, ih3⟩ := ih (checkEntry td t fetch s log k v).1
      (checkEntry td t fetch s log k v).2 hkr hidr
    exact ⟨ih1.trans hstep.1, ih2.trans hstep.2, ih3.trans hfil⟩

theorem streamStep_seen (s : ScraperState) (p : Post) (now : ℚ) (ok : Bool)
    (h : p.id ∈ s.collectedPosts) : streamStep s p now ok = s := by
  simp [streamStep, h]

theorem streamStep_fail (s : ScraperState) (p : Post) (now : ℚ) :
    streamStep s p now false = s := by
  by_cases h : p.id ∈ s.collectedPosts <;> simp [streamStep, h]

/-! Preservation of the reachability invariant. -/

theorem good_count {s : ScraperState} {log : List PostRecord} (hg : Good s log)
    (k : String) :
    countOcc (log.map (fun r => r.id)) k + countOcc (keysOf s.postIdToContent) k ≤ 1 := by
  by_cases h : k ∈ log.map (fun r => r.id)
  · exact hg.2.2.2 k h
  · have h0 : countOcc (log.map (fun r => r.id)) k = 0 := countOcc_eq_zero.mpr h
    have h1 : countOcc (keysOf s.postIdToContent) k ≤ 1 :=
      nodup_countOcc_le_one hg.1.2.1 k
    omega

theorem good_evict {s : ScraperState} {log : List PostRecord} (k : String)
    (r : PostRecord) (hg : Good s log) (hk : k ∈ keysOf s.postIdToContent)
    (hr : r.id = k) :
    Good { s with
        postIdToContent := mapErase s.postIdToContent k
        postTrackingStart := mapErase s.postTrackingStart k } (log ++ [r]) := by
  obtain ⟨⟨w1, w2, w3⟩, g1, g2, g3⟩ := hg
  refine ⟨⟨?_, ?_, ?_⟩, ?_, ?_, ?_⟩
  · show keysOf (mapErase s.postIdToContent k) = keysOf (mapErase s.postTrackingStart k)
    rw [keysOf_mapErase, keysOf_mapErase, w1]
  · show (keysOf (mapErase s.postIdToContent k)).Nodup
    rw [keysOf_mapErase]
    exact eraseKey_nodup w2 k
  · intro kv hm
    exact w3 kv (mem_mapErase hm)
  · intro j hj
    rw [keysOf_mapErase] at hj
    exact g1 j (eraseKey_subset hj)
  · intro r2 h2
    rcases List.mem_append.mp h2 with h3 | h3
    · exact g2 r2 h3
    · have he : r2 = r := List.mem_singleton.mp h3
      rw [he, hr]
      exact g1 k hk
  · intro j hj
    have hcg : ∀ j2, countOcc (log.map (fun x => x.id)) j2
        + countOcc (keysOf s.postIdToContent) j2 ≤ 1 :=
      good_count ⟨⟨w1, w2, w3⟩, g1, g2, g3⟩
    have hmap : (log ++ [r]).map (fun x => x.id) = log.map (fun x => x.id) ++ [k] := by
      simp [hr]
    rw [hmap, countOcc_append]
    show _ + countOcc (keysOf (mapErase s.postIdToContent k)) j ≤ 1
    rw [keysOf_mapErase]
    by_cases hjk : j = k
    · subst hjk
      have h1 : countOcc (keysOf s.postIdToContent) j = 1 := nodup_countOcc_mem w2 hk
      have h2 := hcg j
      have h3 : countOcc (eraseKey (keysOf s.postIdToContent) j) j = 0 :=
        eraseKey_countOcc_self w2 j
      have h4 : countOcc [j] j = 1 := by simp [countOcc]
      omega
    · have h3 : countOcc (eraseKey (keysOf s.postIdToContent) k) j
          = countOcc (keysOf s.postIdToContent) j := eraseKey_countOcc_ne hjk
      have hkj : ¬ k = j := fun h => hjk h.symm
      have h4 : countOcc [k] j = 0 := by simp [countOcc, hkj]
      have h2 := hcg j
      omega

theorem good_update {s : ScraperState} {log : List PostRecord} (k : String)
    (r : PostRecord) (hg : Good s log) (hk : k ∈ keysOf s.postIdToContent)
    (hr : r.id = k) :
    Good { s with postIdToContent := mapInsert s.postIdToContent k r } log := by
  obtain ⟨⟨w1, w2, w3⟩, g1, g2, g3⟩ := hg
  refine ⟨⟨?_, ?_, ?_⟩, ?_, ?_, ?_⟩
  · show keysOf (mapInsert s.postIdToContent k r) = keysOf s.postTrackingStart
    rw [keysOf_insert_mem _ hk, w1]
  · show (keysOf (mapInsert s.postIdToContent k r)).Nodup
    rw [keysOf_insert_mem _ hk]
    exact w2
  · intro kv hm
    rcases mem_mapInsert hm with h1 | h1
    · rw [h1]
      exact hr
    · exact w3 kv h1
  · intro j hj
    rw [keysOf_insert_mem _ hk] at hj
    exact g1 j hj
  · exact g2
  · intro j hj
    show _ + countOcc (keysOf (mapInsert s.postIdToContent k r)) j ≤ 1
    rw [keysOf_insert_mem _ hk]
    exact g3 j hj

theorem streamStep_good {s : ScraperState} {log : List PostRecord} (p : Post) (now : ℚ)
    (ok : Bool) (hg : Good s log) : Good (streamStep s p now ok) log := by
  by_cases hc : p.id ∈ s.collectedPosts
  · rw [streamStep_seen s p now ok hc]
    exact hg
  · cases ok with
    | false =>
      rw [streamStep_fail]
      exact hg
    | true =>
      have hnotC : p.id ∉ keysOf s.postIdToContent := fun h => hc (hg.2.1 p.id h)
      have hnotS : p.id ∉ keysOf s.postTrackingStart := by
        rw [← hg.1.1]
        exact hnotC
      have hstep : streamStep s p now true = { s with
          postIdToContent := mapInsert s.postIdToContent p.id (buildRecord p now)
          postTrackingStart := mapInsert s.postTrackingStart p.id now
          collectedPosts := p.id :: s.collectedPosts } := by
        simp [streamStep, hc]
      rw [hstep]
      obtain ⟨⟨w1, w2, w3⟩, g1, g2, g3⟩ := hg
      refine ⟨⟨?_, ?_, ?_⟩, ?_, ?_, ?_⟩
      · show keysOf (mapInsert s.postIdToContent p.id (buildRecord p now))
            = keysOf (mapInsert s.postTrackingStart p.id now)
        rw [keysOf_insert_new _ hnotC, keysOf_insert_new _ hnotS, w1]
      · show (keysOf (mapInsert s.postIdToContent p.id (buildRecord p now))).Nodup
        rw [keysOf_insert_new _ hnotC]
        refine List.Nodup.append w2 (List.nodup_singleton _) ?_
        intro a ha hb
        have hab : a = p.id := List.mem_singleton.mp hb
        rw [hab] at ha
        exact hnotC ha
      · intro kv hm
        rcases mem_mapInsert hm with h1 | h1
        · rw [h1]
          rfl
        · exact w3 kv h1
      · intro j hj
        show j ∈ p.id :: s.collectedPosts
        rw [keysOf_insert_new _ hnotC] at hj
        rcases List.mem_append.mp hj with h1 | h1
        · exact List.mem_cons_of_mem _ (g1 j h1)
        · have hjp : j = p.id := List.mem_singleton.mp h1
          rw [hjp]
          exact List.mem_cons_self _ _
      · intro r hr
        exact List.mem_cons_of_mem _ (g2 r hr)
      · intro j hj
        show _ + countOcc (keysOf (mapInsert s.postIdToContent p.id (buildRecord p now))) j ≤ 1
        rw [keysOf_insert_new _ hnotC, countOcc_append]
        obtain ⟨r, hrmem, hrid⟩ := List.mem_map.mp hj
        have hjc : j ∈ s.collectedPosts := hrid ▸ g2 r hrmem
        have hjp : ¬ p.id = j := fun h => hc (h ▸ hjc)
        have h0 : countOcc [p.id] j = 0 := by simp [countOcc, hjp]
        have h1 := g3 j hj
        omega

theorem checkEntry_good (td t : ℚ) (fetch : String → Option FetchInfo)
    {s : ScraperState} {log : List PostRecord} {k : String} {v : PostRecord}
    (hg : Good s log) (hid : v.id = k) :
    Good (checkEntry td t fetch s log k v).1 (checkEntry td t fetch s log k v).2 := by
  rcases hst : mapLookup s.postTrackingStart k with _ | st
  · rw [checkEntry_noTrack td t fetch s log k v hst]
    exact hg
  · have hkS : k ∈ keysOf s.postTrackingStart := by
      apply mapLookup_isSome.mp
      rw [hst]
      rfl
    have hkC : k ∈ keysOf s.postIdToContent := by
      rw [hg.1.1]
      exact hkS
    by_cases htm : t - st > td
    · rw [checkEntry_timeout td t fetch s log k v hst htm]
      exact good_evict k v hg hkC hid
    · rcases hf : fetch k with _ | fi
      · rw [checkEntry_fetchNone td t fetch s log k v hst htm hf]
        exact hg
      · rcases hrm : fi.removedByCategory.isSome with _ | _
        · rw [checkEntry_alive td t fetch s log k v hst htm hf hrm]
          exact good_update k (applyUpdate v fi t st) hg hkC (by rw [applyUpdate_id, hid])
        · rw [checkEntry_removed td t fetch s log k v hst htm hf hrm]
          exact good_evict k (applyUpdate v fi t st) hg hkC (by rw [applyUpdate_id, hid])

theorem processEntries_good (td t : ℚ) (fetch : String → Option FetchInfo)
    (l : List (String × PostRecord)) :
    ∀ (s : ScraperState) (log : List PostRecord), Good s log → EntryIds l →
      Good (processEntries td t fetch l s log).1 (processEntries td t fetch l s log).2 := by
  induction l with
  | nil =>
    intro s log hg _
    exact hg
  | cons kv rest ih =>
    intro s log hg hids
    obtain ⟨k, v⟩ := kv
    have hid : v.id = k := hids (k, v) (List.mem_cons_self _ _)
    show Good (processEntries td t fetch rest (checkEntry td t fetch s log k v).1
        (checkEntry td t fetch s log k v).2).1 _
    exact ih _ _ (checkEntry_good td t fetch hg hid)
      (fun kv2 h2 => hids kv2 (List.mem_cons_of_mem _ h2))

theorem checkEntry_shift (td t : ℚ) (fetch : String → Option FetchInfo)
    (s : ScraperState) (k : String) (v : PostRecord) (L1 L2 : List PostRecord) :
    checkEntry td t fetch s (L1 ++ L2) k v
      = ((checkEntry td t fetch s L2 k v).1, L1 ++ (checkEntry td t fetch s L2 k v).2) := by
  rcases hst : mapLookup s.postTrackingStart k with _ | st
  · rw [checkEntry_noTrack td t fetch s (L1 ++ L2) k v hst,
      checkEntry_noTrack td t fetch s L2 k v hst]
  · by_cases htm : t - st > td
    · rw [checkEntry_timeout td t fetch s (L1 ++ L2) k v hst htm,
        checkEntry_timeout td t fetch s L2 k v hst htm]
      simp
    · rcases hf : fetch k with _ | fi
      · rw [checkEntry_fetchNone td t fetch s (L1 ++ L2) k v hst htm hf,
          checkEntry_fetchNone td t fetch s L2 k v hst htm hf]
      · rcases hrm : fi.removedByCategory.isSome with _ | _
        · rw [checkEntry_alive td t fetch s (L1 ++ L2) k v hst htm hf hrm,
            checkEntry_alive td t fetch s L2 k v hst htm hf hrm]
        · rw [checkEntry_removed td t fetch s (L1 ++ L2) k v hst htm hf hrm,
            checkEntry_removed td t fetch s L2 k v hst htm hf hrm]
          simp

theorem processEntries_shift (td t : ℚ) (fetch : String → Option FetchInfo)
    (l : List (String × PostRecord)) :
    ∀ (s : ScraperState) (L1 L2 : List PostRecord),
      processEntries td t fetch l s (L1 ++ L2)
        = ((processEntries td t fetch l s L2).1,
            L1 ++ (processEntries td t fetch l s L2).2) := by
  induction l with
  | nil =>
    intro s L1 L2
    rfl
  | cons kv rest ih =>
    intro s L1 L2
    obtain ⟨k, v⟩ := kv
    show processEntries td t fetch rest (checkEntry td t fetch s (L1 ++ L2) k v).1
        (checkEntry td t fetch s (L1 ++ L2) k v).2 = _
    rw [checkEntry_shift]
    exact ih _ L1 _

theorem processEntries_log_decomp (td t : ℚ) (fetch : String → Option FetchInfo)
    (l : List (String × PostRecord)) (s : ScraperState) (L : List PostRecord) :
    processEntries td t fetch l s L
      = ((processEntries td t fetch l s []).1, L ++ (processEntries td t fetch l s []).2) := by
  have h := processEntries_shift td t fetch l s L []
  simpa using h

theorem good_of_fields_eq {s1 s2 : ScraperState} {log : List PostRecord}
    (h1 : s2.postIdToContent = s1.postIdToContent)
    (h2 : s2.postTrackingStart = s1.postTrackingStart)
    (h3 : s2.collectedPosts = s1.collectedPosts)
    (hg : Good s1 log) : Good s2 log := by
  obtain ⟨⟨w1, w2, w3⟩, g1, g2, g3⟩ := hg
  refine ⟨⟨?_, ?_, ?_⟩, ?_, ?_, ?_⟩
  · rw [h1, h2, w1]
  · rw [h1]
    exact w2
  · rw [h1]
    exact w3
  · rw [h1, h3]
    exact g1
  · rw [h3]
    exact g2
  · rw [h1]
    exact g3

theorem checkForRemovals_fields (td t : ℚ) (fetch : String → Option FetchInfo)
    (saveOk : Bool) (s : ScraperState) :
    (checkForRemovals td t fetch saveOk s).finalized = (checkCycleCore td t fetch s).2 ∧
      (checkForRemovals td t fetch saveOk s).state.postIdToContent
        = (checkCycleCore td t fetch s).1.postIdToContent ∧
      (checkForRemovals td t fetch saveOk s).state.postTrackingStart
        = (checkCycleCore td t fetch s).1.postTrackingStart ∧
      (checkForRemovals td t fetch saveOk s).state.collectedPosts
        = (checkCycleCore td t fetch s).1.collectedPosts := by
  simp only [checkForRemovals]
  by_cases he : (checkCycleCore td t fetch s).2.isEmpty
  · simp [he]
  · cases saveOk <;> simp [he]

theorem checkForRemovals_good {s : ScraperState} {log : List PostRecord}
    (td t : ℚ) (fetch : String → Option FetchInfo) (saveOk : Bool) (hg : Good s log) :
    Good (checkForRemovals td t fetch saveOk s).state
      (log ++ (checkForRemovals td t fetch saveOk s).finalized) := by
  obtain ⟨hf, hc1, hc2, hc3⟩ := checkForRemovals_fields td t fetch saveOk s
  rw [hf]
  apply good_of_fields_eq hc1 hc2 hc3
  have hids : EntryIds s.postIdToContent := hg.1.2.2
  have h := processEntries_good td t fetch s.postIdToContent s log hg hids
  rw [processEntries_log_decomp] at h
  exact h

theorem runTrace_good (td : ℚ) (steps : List Step) :
    ∀ (s : ScraperState) (log : List PostRecord), Good s log →
      Good (runTrace td s log steps).1 (runTrace td s log steps).2 := by
  induction steps with
  | nil =>
    intro s log hg
    exact hg
  | cons step rest ih =>
    intro s log hg
    cases step with
    | stream p now ok =>
      show Good (runTrace td (streamStep s p now ok) log rest).1 _
      exact ih _ _ (streamStep_good p now ok hg)
    | check t fetch saveOk =>
      show Good (runTrace td (checkForRemovals td t fetch saveOk s).state
          (log ++ (checkForRemovals td t fetch saveOk s).finalized) rest).1 _
      exact ih _ _ (checkForRemovals_good td t fetch saveOk hg)

theorem good_empty : Good emptyState [] :=
  ⟨⟨rfl, List.nodup_nil, fun kv h => absurd h (List.not_mem_nil kv)⟩,
    fun k h => absurd h (List.not_mem_nil k),
    fun r h => absurd h (List.not_mem_nil r),
    fun k h => absurd h (List.not_mem_nil k)⟩

/-! Localization: what one check cycle does to one tracked entry. -/

theorem checkCycleCore_at_key (td t : ℚ) (fetch : String → Option FetchInfo)
    {s : ScraperState} {k : String} {v : PostRecord} {st : ℚ}
    (hg : Good s []) (hv : mapLookup s.postIdToContent k = some v)
    (hst : mapLookup s.postTrackingStart k = some st) :
    (t - st > td →
      mapLookup (checkCycleCore td t fetch s).1.postIdToContent k = none ∧
      mapLookup (checkCycleCore td t fetch s).1.postTrackingStart k = none ∧
      ((checkCycleCore td t fetch s).2).filter (fun r => r.id = k) = [v]) ∧
    (¬ t - st > td → fetch k = none →
      mapLookup (checkCycleCore td t fetch s).1.postIdToContent k = some v ∧
      mapLookup (checkCycleCore td t fetch s).1.postTrackingStart k = some st ∧
      ((checkCycleCore td t fetch s).2).filter (fun r => r.id = k) = []) ∧
    (∀ fi : FetchInfo, ¬ t - st > td → fetch k = some fi →
      (fi.removedByCategory.isSome = true →
        mapLookup (checkCycleCore td t fetch s).1.postIdToContent k = none ∧
        mapLookup (checkCycleCore td t fetch s).1.postTrackingStart k = none ∧
        ((checkCycleCore td t fetch s).2).filter (fun r => r.id = k)
          = [applyUpdate v fi t st]) ∧
      (fi.removedByCategory.isSome = false →
        mapLookup (checkCycleCore td t fetch s).1.postIdToContent k
          = some (applyUpdate v fi t st) ∧
        mapLookup (checkCycleCore td t fetch s).1.postTrackingStart k = some st ∧
        ((checkCycleCore td t fetch s).2).filter (fun r => r.id = k) = [])) := by
  have w1 : keysOf s.postIdToContent = keysOf s.postTrackingStart := hg.1.1
  have w2 : (keysOf s.postIdToContent).Nodup := hg.1.2.1
  have w3 : ∀ kv ∈ s.postIdToContent, kv.2.id = kv.1 := hg.1.2.2
  have hmem : (k, v) ∈ s.postIdToContent := mapLookup_mem hv
  obtain ⟨l1, l2, hsplit⟩ := List.append_of_mem hmem
  have hvid : v.id = k := w3 (k, v) hmem
  have hkeys : keysOf s.postIdToContent = keysOf l1 ++ k :: keysOf l2 := by
    rw [hsplit]
    simp [keysOf]
  have hnd2 : (keysOf l1 ++ k :: keysOf l2).Nodup := hkeys ▸ w2
  obtain ⟨hndl1, hndk2, hdisj⟩ := List.nodup_append.mp hnd2
  have hkl1 : k ∉ keysOf l1 := fun hk1 => hdisj hk1 (List.mem_cons_self _ _)
  have hkl2 : k ∉ keysOf l2 := (List.nodup_cons.mp hndk2).1
  have hidl1 : EntryIds l1 := by
    intro kv h
    apply w3
    rw [hsplit]
    exact List.mem_append_left _ h
  have hidl2 : EntryIds l2 := by
    intro kv h
    apply w3
    rw [hsplit]
    exact List.mem_append_right _ (List.mem_cons_of_mem _ h)
  obtain ⟨fA1, fA2, fA3⟩ :=
    processEntries_frame td t fetch s ([] : List PostRecord) hkl1 hidl1
  have hgoodA : Good (processEntries td t fetch l1 s []).1
      (processEntries td t fetch l1 s []).2 :=
    processEntries_good td t fetch l1 s [] hg hidl1
  have hndA : (keysOf (processEntries td t fetch l1 s []).1.postIdToContent).Nodup :=
    hgoodA.1.2.1
  have hndA2 : (keysOf (processEntries td t fetch l1 s []).1.postTrackingStart).Nodup := by
    rw [← hgoodA.1.1]
    exact hndA
  have hvA : mapLookup (processEntries td t fetch l1 s []).1.postIdToContent k = some v :=
    fA1.trans hv
  have hstA : mapLookup (processEntries td t fetch l1 s []).1.postTrackingStart k
      = some st := fA2.trans hst
  have hfilA : ((processEntries td t fetch l1 s []).2).filter (fun r => r.id = k) = [] :=
    fA3
  have hcore : checkCycleCore td t fetch s
      = processEntries td t fetch l2
          (checkEntry td t fetch (processEntries td t fetch l1 s []).1
            (processEntries td t fetch l1 s []).2 k v).1
          (checkEntry td t fetch (processEntries td t fetch l1 s []).1
            (processEntries td t fetch l1 s []).2 k v).2 := by
    show processEntries td t fetch s.postIdToContent s [] = _
    rw [hsplit, processEntries_append]
    rfl
  refine ⟨?_, ?_, ?_⟩
  · intro htm
    rw [hcore, checkEntry_timeout td t fetch _ _ k v hstA htm]
    obtain ⟨f1, f2, f3⟩ :=
      processEntries_frame td t fetch _
        ((processEntries td t fetch l1 s []).2 ++ [v]) hkl2 hidl2
    refine ⟨f1.trans (mapLookup_erase_self hndA), f2.trans (mapLookup_erase_self hndA2), ?_⟩
    rw [f3, List.filter_append, hfilA]
    simp [hvid]
  · intro htm hf
    rw [hcore, checkEntry_fetchNone td t fetch _ _ k v hstA htm hf]
    obtain ⟨f1, f2, f3⟩ :=
      processEntries_frame td t fetch _
        (processEntries td t fetch l1 s []).2 hkl2 hidl2
    exact ⟨f1.trans hvA, f2.trans hstA, f3.trans hfilA⟩
  · intro fi htm hf
    constructor
    · intro hrm
      rw [hcore, checkEntry_removed td t fetch _ _ k v hstA htm hf hrm]
      obtain ⟨f1, f2, f3⟩ :=
        processEntries_frame td t fetch _
          ((processEntries td t fetch l1 s []).2 ++ [applyUpdate v fi t st]) hkl2 hidl2
      refine ⟨f1.trans (mapLookup_erase_self hndA), f2.trans (mapLookup_erase_self hndA2), ?_⟩
      rw [f3, List.filter_append, hfilA]
      simp [applyUpdate_id, hvid]
    · intro hrm
      rw [hcore, checkEntry_alive td t fetch _ _ k v hstA htm hf hrm]
      obtain ⟨f1, f2, f3⟩ :=
        processEntries_frame td t fetch _
          (processEntries td t fetch l1 s []).2 hkl2 hidl2
      exact ⟨f1.trans (mapLookup_insert_self _ _ _), f2.trans hstA, f3.trans hfilA⟩

/-! Stability of the evicted situation. -/

theorem streamStep_evicted {s : ScraperState} {k : String} (p : Post) (now : ℚ)
    (ok : Bool) (h : EvictedInv s k) : EvictedInv (streamStep s p now ok) k := by
  obtain ⟨h1, h2, h3⟩ := h
  by_cases hc : p.id ∈ s.collectedPosts
  · rw [streamStep_seen s p now ok hc]
    exact ⟨h1, h2, h3⟩
  · cases ok with
    | false =>
      rw [streamStep_fail]
      exact ⟨h1, h2, h3⟩
    | true =>
      have hne : k ≠ p.id := fun he => hc (he ▸ h1)
      have hstep : streamStep s p now true = { s with
          postIdToContent := mapInsert s.postIdToContent p.id (buildRecord p now)
          postTrackingStart := mapInsert s.postTrackingStart p.id now
          collectedPosts := p.id :: s.collectedPosts } := by
        simp [streamStep, hc]
      rw [hstep]
      exact ⟨List.mem_cons_of_mem _ h1,
        (mapLookup_insert_ne _ _ hne).trans h2,
        (mapLookup_insert_ne _ _ hne).trans h3⟩

theorem checkEntry_evicted {s : ScraperState} {k : String} (td t : ℚ)
    (fetch : String → Option FetchInfo) (log : List PostRecord) (k2 : String)
    (v2 : PostRecord) (h : EvictedInv s k) :
    EvictedInv (checkEntry td t fetch s log k2 v2).1 k := by
  obtain ⟨h1, h2, h3⟩ := h
  by_cases hk : k2 = k
  · subst hk
    rw [checkEntry_noTrack td t fetch s log k2 v2 h3]
    exact ⟨h1, h2, h3⟩
  · have hne : k ≠ k2 := fun he => hk he.symm
    obtain ⟨f1, f2⟩ := checkEntry_frame td t fetch s log k2 v2 hne
    refine ⟨?_, f1.trans h2, f2.trans h3⟩
    rw [checkEntry_collected]
    exact h1

theorem processEntries_evicted {s : ScraperState} {k : String} (td t : ℚ)
    (fetch : String → Option FetchInfo) (l : List (String × PostRecord))
    (log : List PostRecord) (h : EvictedInv s k) :
    EvictedInv (processEntries td t fetch l s log).1 k := by
  induction l generalizing s log with
  | nil => exact h
  | cons kv rest ih =>
    obtain ⟨k2, v2⟩ := kv
    show EvictedInv (processEntries td t fetch rest (checkEntry td t fetch s log k2 v2).1
        (checkEntry td t fetch s log k2 v2).2).1 k
    exact ih _ (checkEntry_evicted td t fetch log k2 v2 h)

theorem checkForRemovals_evicted {s : ScraperState} {k : String} (td t : ℚ)
    (fetch : String → Option FetchInfo) (saveOk : Bool) (h : EvictedInv s k) :
    EvictedInv (checkForRemovals td t fetch saveOk s).state k := by
  obtain ⟨_, hc1, hc2, hc3⟩ := checkForRemovals_fields td t fetch saveOk s
  have hcore : EvictedInv (checkCycleCore td t fetch s).1 k :=
    processEntries_evicted td t fetch s.postIdToContent [] h
  exact ⟨hc3 ▸ hcore.1, hc1 ▸ hcore.2.1, hc2 ▸ hcore.2.2⟩

theorem runTrace_evicted {k : String} (td : ℚ) (steps : List Step) :
    ∀ {s : ScraperState} (log : List PostRecord), EvictedInv s k →
      EvictedInv (runTrace td s log steps).1 k := by
  induction steps with
  | nil =>
    intro s log h
    exact h
  | cons step rest ih =>
    intro s log h
    cases step with
    | stream p now ok =>
      show EvictedInv (runTrace td (streamStep s p now ok) log rest).1 k
      exact ih log (streamStep_evicted p now ok h)
    | check t fetch saveOk =>
      show EvictedInv (runTrace td (checkForRemovals td t fetch saveOk s).state
          (log ++ (checkForRemovals td t fetch saveOk s).finalized) rest).1 k
      exact ih _ (checkForRemovals_evicted td t fetch saveOk h)

/-! Statistics lemmas. -/

theorem foldl_min_spec (l : List Int) :
    ∀ a : Int, ∃ m : Int,
      l.foldl (fun acc x => min acc (x : WithTop Int)) (a : WithTop Int) = (m : WithTop Int)
        ∧ (m = a ∨ m ∈ l) ∧ m ≤ a ∧ ∀ x ∈ l, m ≤ x := by
  induction l with
  | nil =>
    intro a
    exact ⟨a, rfl, Or.inl rfl, le_refl a, fun x hx => absurd hx (List.not_mem_nil x)⟩
  | cons y ys ih =>
    intro a
    have hfold : (y :: ys).foldl (fun acc x => min acc (x : WithTop Int)) (a : WithTop Int)
        = ys.foldl (fun acc x => min acc (x : WithTop Int))
            (min (a : WithTop Int) (y : WithTop Int)) := rfl
    have hcoe : min (a : WithTop Int) (y : WithTop Int) = ((min a y : Int) : WithTop Int) :=
      (WithTop.coe_min a y).symm
    obtain ⟨m, hm, hmem, hle, hall⟩ := ih (min a y)
    refine ⟨m, ?_, ?_, ?_, ?_⟩
    · rw [hfold, hcoe]
      exact hm
    · rcases hmem with h1 | h1
      · rcases min_choice a y with h2 | h2
        · exact Or.inl (h1.trans h2)
        · refine Or.inr ?_
          rw [h1, h2]
          exact List.mem_cons_self _ _
      · exact Or.inr (List.mem_cons_of_mem _ h1)
    · exact le_trans hle (min_le_left a y)
    · intro x hx
      rcases List.mem_cons.mp hx with h1 | h1
      · rw [h1]
        exact le_trans hle (min_le_right a y)
      · exact hall x h1

theorem statMin_spec (l : List Int) (h : l ≠ []) :
    ∃ m : Int, statMin l = (m : WithTop Int) ∧ m ∈ l ∧ ∀ x ∈ l, m ≤ x := by
  cases l with
  | nil => exact absurd rfl h
  | cons y ys =>
    have hfold : statMin (y :: ys)
        = ys.foldl (fun acc x => min acc (x : WithTop Int))
            (min (⊤ : WithTop Int) (y : WithTop Int)) := rfl
    have htop : min (⊤ : WithTop Int) (y : WithTop Int) = (y : WithTop Int) :=
      min_eq_right le_top
    obtain ⟨m, hm, hmem, hle, hall⟩ := foldl_min_spec ys y
    refine ⟨m, ?_, ?_, ?_⟩
    · rw [hfold, htop]
      exact hm
    · rcases hmem with h1 | h1
      · rw [h1]
        exact List.mem_cons_self _ _
      · exact List.mem_cons_of_mem _ h1
    · intro x hx
      rcases List.mem_cons.mp hx with h1 | h1
      · rw [h1]
        exact hle
      · exact hall x h1

theorem foldl_max_spec (l : List Int) :
    ∀ a : Int, a ≤ l.foldl max a ∧ (l.foldl max a = a ∨ l.foldl max a ∈ l) ∧
      ∀ x ∈ l, x ≤ l.foldl max a := by
  induction l with
  | nil =>
    intro a
    exact ⟨le_refl a, Or.inl rfl, fun x hx => absurd hx (List.not_mem_nil x)⟩
  | cons y ys ih =>
    intro a
    have hfold : (y :: ys).foldl max a = ys.foldl max (max a y) := rfl
    rw [hfold]
    obtain ⟨h1, h2, h3⟩ := ih (max a y)
    refine ⟨le_trans (le_max_left a y) h1, ?_, ?_⟩
    · rcases h2 with h4 | h4
      · rcases max_choice a y with h5 | h5
        · exact Or.inl (h4.trans h5)
        · refine Or.inr ?_
          rw [h4, h5]
          exact List.mem_cons_self _ _
      · exact Or.inr (List.mem_cons_of_mem _ h4)
    · intro x hx
      rcases List.mem_cons.mp hx with h4 | h4
      · rw [h4]
        exact le_trans (le_max_right a y) h1
      · exact h3 x h4

theorem statMax_spec (l : List Int) :
    0 ≤ statMax l ∧ (statMax l = 0 ∨ statMax l ∈ l) ∧ ∀ x ∈ l, x ≤ statMax l :=
  foldl_max_spec l 0

theorem statMax_of_nonneg (l : List Int) (h : l ≠ []) (hpos : ∀ x ∈ l, 0 ≤ x) :
    statMax l ∈ l ∧ ∀ x ∈ l, x ≤ statMax l := by
  obtain ⟨h0, h1, h2⟩ := statMax_spec l
  rcases h1 with h3 | h3
  · cases l with
    | nil => exact absurd rfl h
    | cons y ys =>
      have hy1 : y ≤ 0 := h3 ▸ h2 y (List.mem_cons_self _ _)
      have hy2 : 0 ≤ y := hpos y (List.mem_cons_self _ _)
      have hy0 : y = 0 := le_antisymm hy1 hy2
      constructor
      · rw [h3, ← hy0]
        exact List.mem_cons_self _ _
      · exact h2
  · exact ⟨h3, h2⟩

theorem foldl_add_eq (l : List Int) : ∀ a : Int, l.foldl (· + ·) a = a + l.sum := by
  induction l with
  | nil =>
    intro a
    simp
  | cons y ys ih =>
    intro a
    show ys.foldl (· + ·) (a + y) = a + (y :: ys).sum
    rw [ih, List.sum_cons]
    ring

theorem statTotal_eq_sum (l : List Int) : statTotal l = l.sum := by
  show l.foldl (· + ·) 0 = l.sum
  rw [foldl_add_eq]
  ring

theorem statAvg_eq (l : List Int) : statAvg l = ((l.sum : Int) : ℚ) / (l.length : ℚ) := by
  unfold statAvg
  rw [statTotal_eq_sum]

/-! Media-classification equivalence with the amended flat policy. -/

theorem getMediaType_eq_amended (p : Post) : getMediaType p = amendedMediaPolicy p := by
  unfold getMediaType amendedMediaPolicy
  by_cases hg : p.galleryData.isSome
  · simp [hg]
  · cases hA : (!p.isSelf && !p.url.isEmpty) <;>
      cases he : endsWithAny p.url imageExts <;>
      cases hi : containsSub p.url imgurHost <;>
      cases hr : containsSub p.url reddItHost <;>
      cases hv : p.isVideo <;>
      cases hy : containsSub p.url youtubeHost <;>
      cases hb : containsSub p.url youtuBeHost <;>
      simp [hg, hA, he, hi, hr, hv, hy, hb]

/-! Small corollaries used by the claim theorems. -/

theorem checkCycleCore_collected (td t : ℚ) (fetch : String → Option FetchInfo)
    (s : ScraperState) :
    (checkCycleCore td t fetch s).1.collectedPosts = s.collectedPosts :=
  processEntries_collected td t fetch s.postIdToContent s []

theorem checkCycleCore_postsData (td t : ℚ) (fetch : String → Option FetchInfo)
    (s : ScraperState) :
    (checkCycleCore td t fetch s).1.postsData = s.postsData :=
  processEntries_postsData td t fetch s.postIdToContent s []

theorem good_nil_of_good {s : ScraperState} {log : List PostRecord} (hg : Good s log) :
    Good s [] :=
  ⟨hg.1, hg.2.1, fun r h => absurd h (List.not_mem_nil r),
    fun k h => absurd h (List.not_mem_nil k)⟩

/-! Claim theorems. -/

/-- C1: along any run from the freshly initialised scraper, at most one
finalized record per post identifier is ever appended to the output batches
(each eviction, by removal detection or by timeout, happens once); a tracked
entry past its timeout is finalized by the very check cycle that observes it,
so while cycles keep running exactly one record is eventually appended; and
once an identifier is in the deduplication set collected_posts, the stream
loop never creates a tracking entry for it again, even after the first entry
has been evicted. -/
theorem c1_exactly_one_finalization :
    (∀ (td : ℚ) (steps : List Step) (pid : String),
      countOcc (((runTrace td emptyState [] steps).2).map (fun r => r.id)) pid ≤ 1) ∧
    (∀ (td t : ℚ) (fetch : String → Option FetchInfo) (saveOk : Bool) (s : ScraperState)
        (k : String) (v : PostRecord) (st : ℚ),
      Good s [] → mapLookup s.postIdToContent k = some v →
        mapLookup s.postTrackingStart k = some st → t - st > td →
        ((checkForRemovals td t fetch saveOk s).finalized).filter (fun r => r.id = k)
          = [v]) ∧
    (∀ (s : ScraperState) (p : Post) (now : ℚ) (ok : Bool),
      p.id ∈ s.collectedPosts → streamStep s p now ok = s) := by
  refine ⟨?_, ?_, ?_⟩
  · intro td steps pid
    have hg := runTrace_good td steps emptyState [] good_empty
    have h := good_count hg pid
    omega
  · intro td t fetch saveOk s k v st hg hv hst htm
    obtain ⟨hfin, _, _, _⟩ := checkForRemovals_fields td t fetch saveOk s
    rw [hfin]
    exact ((checkCycleCore_at_key td t fetch hg hv hst).1 htm).2.2
  · exact streamStep_seen

/-- Witness for C1 at concrete inputs. -/
theorem c1_witness :
    countOcc (((runTrace 86400 emptyState []
        [Step.stream post1 0 true]).2).map (fun r => r.id)) "p1" ≤ 1 ∧
      ((checkForRemovals 86400 90000 (fun _ => none) true sampleState1).finalized).filter
        (fun r => r.id = "p1") = [buildRecord post1 0] ∧
      streamStep sampleState1 post1 5 true = sampleState1 :=
  ⟨c1_exactly_one_finalization.1 86400 [Step.stream post1 0 true] "p1",
    c1_exactly_one_finalization.2.1 86400 90000 (fun _ => none) true sampleState1 "p1"
      (buildRecord post1 0) 0 (by decide) (by decide) (by decide)
      (by with_unfolding_all decide),
    c1_exactly_one_finalization.2.2 sampleState1 post1 5 true (by decide)⟩

/-- C2: a tracked entry whose removal-check fetch reports removal
(removed_by_category non-null) is, in that same cycle, updated with
is_removed = true, deleted from both tracking maps, and its updated record is
appended to updated_data; the identifier then stays out of the tracking map
under every further step of the system. -/
theorem c2_removal_finalized (td t : ℚ) (fetch : String → Option FetchInfo)
    (saveOk : Bool) (s : ScraperState) (k : String) (v : PostRecord) (st : ℚ)
    (fi : FetchInfo) (hg : Good s [])
    (hv : mapLookup s.postIdToContent k = some v)
    (hst : mapLookup s.postTrackingStart k = some st)
    (htm : ¬ t - st > td) (hf : fetch k = some fi)
    (hrm : fi.removedByCategory.isSome = true) :
    ((checkForRemovals td t fetch saveOk s).finalized).filter (fun r => r.id = k)
        = [applyUpdate v fi t st] ∧
      (applyUpdate v fi t st).isRemoved = true ∧
      mapLookup (checkForRemovals td t fetch saveOk s).state.postIdToContent k = none ∧
      mapLookup (checkForRemovals td t fetch saveOk s).state.postTrackingStart k = none ∧
      ∀ (steps : List Step) (log : List PostRecord),
        mapLookup (runTrace td (checkForRemovals td t fetch saveOk s).state
          log steps).1.postIdToContent k = none := by
  obtain ⟨hfin, hc1, hc2, hc3⟩ := checkForRemovals_fields td t fetch saveOk s
  obtain ⟨m1, m2, m3⟩ := ((checkCycleCore_at_key td t fetch hg hv hst).2.2 fi htm hf).1 hrm
  have hcol : k ∈ s.collectedPosts := by
    apply hg.2.1
    apply mapLookup_isSome.mp
    rw [hv]
    rfl
  have hev : EvictedInv (checkForRemovals td t fetch saveOk s).state k := by
    refine ⟨?_, ?_, ?_⟩
    · rw [hc3, checkCycleCore_collected]
      exact hcol
    · rw [hc1]
      exact m1
    · rw [hc2]
      exact m2
  refine ⟨?_, ?_, hev.2.1, hev.2.2, ?_⟩
  · rw [hfin]
    exact m3
  · rw [applyUpdate_isRemoved, hrm]
  · intro steps log
    exact (runTrace_evicted td steps log hev).2.1

/-- Witness for C2 at concrete inputs, with the persistence conjunct
instantiated at a further concrete step. -/
theorem c2_witness :
    ((checkForRemovals 86400 100 (fun _ => some fetchRemoved) true
        sampleState1).finalized).filter (fun r => r.id = "p1")
      = [applyUpdate (buildRecord post1 0) fetchRemoved 100 0] ∧
      (applyUpdate (buildRecord post1 0) fetchRemoved 100 0).isRemoved = true ∧
      mapLookup (checkForRemovals 86400 100 (fun _ => some fetchRemoved) true
        sampleState1).state.postIdToContent "p1" = none ∧
      mapLookup (checkForRemovals 86400 100 (fun _ => some fetchRemoved) true
        sampleState1).state.postTrackingStart "p1" = none ∧
      mapLookup (runTrace 86400 (checkForRemovals 86400 100 (fun _ => some fetchRemoved)
          true sampleState1).state [] [Step.stream post2 7 true]).1.postIdToContent "p1"
        = none := by
  have h := c2_removal_finalized 86400 100 (fun _ => some fetchRemoved) true sampleState1
    "p1" (buildRecord post1 0) 0 fetchRemoved (by decide) (by decide) (by decide)
    (by with_unfolding_all decide) rfl (by decide)
  exact ⟨h.1, h.2.1, h.2.2.1, h.2.2.2.1, h.2.2.2.2 [Step.stream post2 7 true] []⟩

/-- C3: a tracked entry whose elapsed time at the start of the cycle exceeds
the tracking duration is finalized by that cycle, with its cached record
appended unchanged and the identifier deleted from both maps; the fetch
source is universally quantified and never consulted for the entry, so this
holds even when every fetch fails (source unreachable) and involves no
rate-limited call. -/
theorem c3_timeout_finalize_no_fetch (td t : ℚ) (fetch : String → Option FetchInfo)
    (saveOk : Bool) (s : ScraperState) (k : String) (v : PostRecord) (st : ℚ)
    (hg : Good s []) (hv : mapLookup s.postIdToContent k = some v)
    (hst : mapLookup s.postTrackingStart k = some st) (htm : t - st > td) :
    ((checkForRemovals td t fetch saveOk s).finalized).filter (fun r => r.id = k) = [v] ∧
      mapLookup (checkForRemovals td t fetch saveOk s).state.postIdToContent k = none ∧
      mapLookup (checkForRemovals td t fetch saveOk s).state.postTrackingStart k = none := by
  obtain ⟨hfin, hc1, hc2, hc3⟩ := checkForRemovals_fields td t fetch saveOk s
  obtain ⟨m1, m2, m3⟩ := (checkCycleCore_at_key td t fetch hg hv hst).1 htm
  refine ⟨?_, ?_, ?_⟩
  · rw [hfin]
    exact m3
  · rw [hc1]
    exact m1
  · rw [hc2]
    exact m2

/-- Witness for C3 at concrete inputs, with an everywhere-failing source. -/
theorem c3_witness :
    ((checkForRemovals 86400 90000 (fun _ => none) true sampleState1).finalized).filter
        (fun r => r.id = "p1") = [buildRecord post1 0] ∧
      mapLookup (checkForRemovals 86400 90000 (fun _ => none) true
        sampleState1).state.postIdToContent "p1" = none ∧
      mapLookup (checkForRemovals 86400 90000 (fun _ => none) true
        sampleState1).state.postTrackingStart "p1" = none :=
  c3_timeout_finalize_no_fetch 86400 90000 (fun _ => none) true sampleState1 "p1"
    (buildRecord post1 0) 0 (by decide) (by decide) (by decide)
    (by with_unfolding_all decide)

/-- C4 counterexample: the claim says hours_tracked always equals the elapsed
time and that a timeout finalization at t = 90000 s carries about 25.0 hours.
In the code, the timeout branch (lines 262-268) appends the cached record
without refreshing hours_tracked, so in the scenario trace (admission at 0,
successful check at 100 s, timeout check at 90000 s) the finalized record
carries 100/3600 = 1/36 hours, not 90000/3600 = 25. -/
theorem c4_counterexample :
    ((runTrace 86400 emptyState [] traceC4).2.map (fun r => r.hoursTracked)
        = [some (1 / 36)]) ∧
      ¬ ((1 : ℚ) / 36 = (90000 - 0) / 3600) := by
  constructor
  · with_unfolding_all decide
  · with_unfolding_all decide

/-- C4 amended: hours_tracked is written only by the successful-fetch update
path, where it equals (now - trackingStart)/3600; that value is non-negative
whenever the clock is past the start and is monotonically non-decreasing
across successive successful checks of the same entry; the timeout path
finalizes the cached record unchanged, so a timeout-finalized record carries
the hours_tracked of its last successful fetch update (absent if none ever
succeeded), not the elapsed time at finalization. -/
theorem c4_amended_hours_tracked :
    (∀ (v : PostRecord) (fi : FetchInfo) (t st : ℚ),
      (applyUpdate v fi t st).hoursTracked = some ((t - st) / 3600)) ∧
    (∀ t st : ℚ, st ≤ t → 0 ≤ (t - st) / 3600) ∧
    (∀ t1 t2 st : ℚ, t1 ≤ t2 → (t1 - st) / 3600 ≤ (t2 - st) / 3600) ∧
    (∀ (td t : ℚ) (fetch : String → Option FetchInfo) (s : ScraperState)
        (log : List PostRecord) (k : String) (v : PostRecord) (st : ℚ),
      mapLookup s.postTrackingStart k = some st → t - st > td →
      (checkEntry td t fetch s log k v).2 = log ++ [v]) := by
  refine ⟨fun v fi t st => rfl, ?_, ?_, ?_⟩
  · intro t st h
    apply div_nonneg
    · linarith
    · norm_num
  · intro t1 t2 st h
    have h3600 : (0 : ℚ) < 3600 := by norm_num
    exact (div_le_div_iff_of_pos_right h3600).mpr (by linarith)
  · intro td t fetch s log k v st hst htm
    rw [checkEntry_timeout td t fetch s log k v hst htm]

/-- Witness for the amended C4 at concrete inputs. -/
theorem c4_amended_witness :
    (applyUpdate (buildRecord post1 0) fetchAlive 100 0).hoursTracked
        = some ((100 - 0) / 3600) ∧
      (0 : ℚ) ≤ (100 - 0) / 3600 ∧
      ((100 : ℚ) - 0) / 3600 ≤ (200 - 0) / 3600 ∧
      (checkEntry 86400 90000 (fun _ => none) sampleState1 [] "p1"
        (buildRecord post1 0)).2 = [] ++ [buildRecord post1 0] :=
  ⟨c4_amended_hours_tracked.1 (buildRecord post1 0) fetchAlive 100 0,
    c4_amended_hours_tracked.2.1 100 0 (by norm_num),
    c4_amended_hours_tracked.2.2.1 100 200 0 (by norm_num),
    c4_amended_hours_tracked.2.2.2 86400 90000 (fun _ => none) sampleState1 [] "p1"
      (buildRecord post1 0) 0 (by decide) (by with_unfolding_all decide)⟩

/-- C5: a tracked entry whose fetch raises during a check cycle is left
completely untouched by that cycle: its stored record, its tracking-start
time, and its absence from updated_data are all preserved; a later cycle that
fetches successfully then updates it with hours_tracked computed from the
original tracking-start time, never reset. -/
theorem c5_fetch_error_untouched (td t t2 : ℚ)
    (fetch fetch2 : String → Option FetchInfo) (saveOk saveOk2 : Bool)
    (s : ScraperState) (k : String) (v : PostRecord) (st : ℚ) (fi2 : FetchInfo)
    (hg : Good s []) (hv : mapLookup s.postIdToContent k = some v)
    (hst : mapLookup s.postTrackingStart k = some st)
    (htm : ¬ t - st > td) (hf : fetch k = none) :
    mapLookup (checkForRemovals td t fetch saveOk s).state.postIdToContent k = some v ∧
      mapLookup (checkForRemovals td t fetch saveOk s).state.postTrackingStart k
        = some st ∧
      ((checkForRemovals td t fetch saveOk s).finalized).filter (fun r => r.id = k)
        = [] ∧
      (¬ t2 - st > td → fetch2 k = some fi2 → fi2.removedByCategory.isSome = false →
        mapLookup (checkForRemovals td t2 fetch2 saveOk2
            (checkForRemovals td t fetch saveOk s).state).state.postIdToContent k
          = some (applyUpdate v fi2 t2 st) ∧
        (applyUpdate v fi2 t2 st).hoursTracked = some ((t2 - st) / 3600)) := by
  obtain ⟨hfin, hc1, hc2, hc3⟩ := checkForRemovals_fields td t fetch saveOk s
  obtain ⟨m1, m2, m3⟩ := (checkCycleCore_at_key td t fetch hg hv hst).2.1 htm hf
  have ha : mapLookup (checkForRemovals td t fetch saveOk s).state.postIdToContent k
      = some v := by
    rw [hc1]
    exact m1
  have hb : mapLookup (checkForRemovals td t fetch saveOk s).state.postTrackingStart k
      = some st := by
    rw [hc2]
    exact m2
  refine ⟨ha, hb, ?_, ?_⟩
  · rw [hfin]
    exact m3
  · intro htm2 hf2 hrm2
    have hg1 : Good (checkForRemovals td t fetch saveOk s).state [] :=
      good_nil_of_good (checkForRemovals_good td t fetch saveOk hg)
    obtain ⟨hfin2, hd1, hd2, hd3⟩ :=
      checkForRemovals_fields td t2 fetch2 saveOk2 (checkForRemovals td t fetch saveOk s).state
    obtain ⟨n1, n2, n3⟩ :=
      ((checkCycleCore_at_key td t2 fetch2 hg1 ha hb).2.2 fi2 htm2 hf2).2 hrm2
    constructor
    · rw [hd1]
      exact n1
    · exact applyUpdate_hoursTracked v fi2 t2 st

/-- Witness for C5 at concrete inputs: a failed check at t = 100 leaves the
entry untouched, a successful check at t = 200 recomputes hours from the
original start 0. -/
theorem c5_witness :
    mapLookup (checkForRemovals 86400 100 (fun _ => none) true
        sampleState1).state.postIdToContent "p1" = some (buildRecord post1 0) ∧
      mapLookup (checkForRemovals 86400 200 (fun _ => some fetchAlive) true
          (checkForRemovals 86400 100 (fun _ => none) true
            sampleState1).state).state.postIdToContent "p1"
        = some (applyUpdate (buildRecord post1 0) fetchAlive 200 0) ∧
      (applyUpdate (buildRecord post1 0) fetchAlive 200 0).hoursTracked
        = some ((200 - 0) / 3600) := by
  have h := c5_fetch_error_untouched 86400 100 200 (fun _ => none)
    (fun _ => some fetchAlive) true true sampleState1 "p1" (buildRecord post1 0) 0
    fetchAlive (by decide) (by decide) (by decide) (by with_unfolding_all decide) rfl
  have h4 := h.2.2.2 (by with_unfolding_all decide) rfl rfl
  exact ⟨h.1, h4.1, h4.2⟩

/-- C6 counterexample: with one timed-out tracked entry and a failing write,
check_for_removals lets the persistence exception escape (save_data is called
outside the per-entry try, lines 302-304); main's loop at lines 465-467 has
no handler around check_for_removals, so this error terminates the process,
contradicting the claim that no error raised inside the core does. -/
theorem c6_counterexample :
    (checkForRemovals 86400 100000 (fun _ => none) false sampleState1).raised = true := by
  with_unfolding_all decide

/-- C6 amended: per-item errors never escape their loops — a check cycle with
a succeeding write never raises whatever the per-entry fetches do, and a
stream-item failure merely skips that item — and the in-memory batch is not
discarded before a successful write (on a write failure posts_data still
holds the batch); however, a persistence write failure does propagate out of
check_for_removals, and since main has no handler it terminates the process. -/
theorem c6_amended_no_crash_except_persist :
    (∀ (td t : ℚ) (fetch : String → Option FetchInfo) (s : ScraperState),
      (checkForRemovals td t fetch true s).raised = false) ∧
    (∀ (s : ScraperState) (p : Post) (now : ℚ), streamStep s p now false = s) ∧
    (∀ (td t : ℚ) (fetch : String → Option FetchInfo) (s : ScraperState),
      (checkCycleCore td t fetch s).2 ≠ [] →
        (checkForRemovals td t fetch false s).raised = true ∧
        (checkForRemovals td t fetch false s).state.postsData
          = s.postsData ++ (checkCycleCore td t fetch s).2) := by
  refine ⟨?_, ?_, ?_⟩
  · intro td t fetch s
    simp only [checkForRemovals]
    by_cases he : (checkCycleCore td t fetch s).2.isEmpty <;> simp [he]
  · intro s p now
    exact streamStep_fail s p now
  · intro td t fetch s hne
    have he : (checkCycleCore td t fetch s).2.isEmpty = false := by
      rcases hq : (checkCycleCore td t fetch s).2 with _ | ⟨a, b⟩
      · exact absurd hq hne
      · rfl
    constructor
    · simp only [checkForRemovals]
      simp [he]
    · simp only [checkForRemovals]
      simp [he, checkCycleCore_postsData]

/-- Witness for the amended C6 at concrete inputs. -/
theorem c6_amended_witness :
    (checkForRemovals 86400 5 (fun _ => none) true sampleState1).raised = false ∧
      streamStep sampleState1 post2 7 false = sampleState1 ∧
      (checkForRemovals 86400 100000 (fun _ => none) false sampleState1).raised = true ∧
      (checkForRemovals 86400 100000 (fun _ => none) false sampleState1).state.postsData
        = sampleState1.postsData
            ++ (checkCycleCore 86400 100000 (fun _ => none) sampleState1).2 :=
  ⟨c6_amended_no_crash_except_persist.1 86400 5 (fun _ => none) sampleState1,
    c6_amended_no_crash_except_persist.2.1 sampleState1 post2 7,
    (c6_amended_no_crash_except_persist.2.2 86400 100000 (fun _ => none) sampleState1
      (by with_unfolding_all decide)).1,
    (c6_amended_no_crash_except_persist.2.2 86400 100000 (fun _ => none) sampleState1
      (by with_unfolding_all decide)).2⟩

/-- C7 counterexample: a self post carrying gallery metadata.  The code
classifies it gallery (the gallery test at line 95 runs first), while the
claim's stated rule order classifies a self-post as text first. -/
theorem c7_counterexample :
    getMediaType galleryPost = "gallery" ∧ claimMediaPolicy galleryPost = "text" ∧
      getMediaType galleryPost ≠ claimMediaPolicy galleryPost := by
  refine ⟨by decide, by decide, by decide⟩

/-- C7 amended: the classification the code implements, as a first-match
policy, is: gallery metadata present wins outright; otherwise a non-self post
with a non-empty URL is image when its URL ends in a static-image extension,
contains imgur.com, or contains redd.it while not flagged video; else video
when the URL contains youtube.com or youtu.be or the post is flagged video;
else link; self posts and posts with an empty URL are text. -/
theorem c7_amended_media_classification (p : Post) :
    getMediaType p = amendedMediaPolicy p :=
  getMediaType_eq_amended p

/-- C8 counterexample: a batch whose only score is -5 gets engagement-stats
score max 0 (the accumulator at line 334 starts at 0, not -inf), which is not
the batch maximum and not even a batch value. -/
theorem c8_counterexample :
    statMax (scoreVals [statRecord "a" (-5)]) = 0 ∧
      ¬ statMax (scoreVals [statRecord "a" (-5)]) ∈ scoreVals [statRecord "a" (-5)] := by
  exact ⟨by decide, by decide⟩

/-- C8 amended: for every non-empty batch, the engagement and length stats
satisfy: every min equals the true minimum of its column and every average
equals the column sum over the batch size; the maxima of the two length
columns (whose values are non-negative) equal the true maxima; the score and
comment maxima are max(0, true maximum) — an upper bound of the column that
is either a column value or the spurious initial 0, hence the true maximum
exactly when some value is non-negative; and the scenario batch with scores
[10, -2, 7] yields min -2, max 10, average 5. -/
theorem c8_amended_stats (ps : List PostRecord) (h : ps ≠ []) :
    (∃ m : Int, statMin (scoreVals ps) = (m : WithTop Int) ∧ m ∈ scoreVals ps ∧
      ∀ x ∈ scoreVals ps, m ≤ x) ∧
    (0 ≤ statMax (scoreVals ps) ∧
      (statMax (scoreVals ps) = 0 ∨ statMax (scoreVals ps) ∈ scoreVals ps) ∧
      ∀ x ∈ scoreVals ps, x ≤ statMax (scoreVals ps)) ∧
    statAvg (scoreVals ps)
      = (((scoreVals ps).sum : Int) : ℚ) / ((scoreVals ps).length : ℚ) ∧
    (∃ m : Int, statMin (commentVals ps) = (m : WithTop Int) ∧ m ∈ commentVals ps ∧
      ∀ x ∈ commentVals ps, m ≤ x) ∧
    (0 ≤ statMax (commentVals ps) ∧
      (statMax (commentVals ps) = 0 ∨ statMax (commentVals ps) ∈ commentVals ps) ∧
      ∀ x ∈ commentVals ps, x ≤ statMax (commentVals ps)) ∧
    statAvg (commentVals ps)
      = (((commentVals ps).sum : Int) : ℚ) / ((commentVals ps).length : ℚ) ∧
    (∃ m : Int, statMin (titleLenVals ps) = (m : WithTop Int) ∧ m ∈ titleLenVals ps ∧
      ∀ x ∈ titleLenVals ps, m ≤ x) ∧
    (statMax (titleLenVals ps) ∈ titleLenVals ps ∧
      ∀ x ∈ titleLenVals ps, x ≤ statMax (titleLenVals ps)) ∧
    statAvg (titleLenVals ps)
      = (((titleLenVals ps).sum : Int) : ℚ) / ((titleLenVals ps).length : ℚ) ∧
    (∃ m : Int, statMin (textLenVals ps) = (m : WithTop Int) ∧ m ∈ textLenVals ps ∧
      ∀ x ∈ textLenVals ps, m ≤ x) ∧
    (statMax (textLenVals ps) ∈ textLenVals ps ∧
      ∀ x ∈ textLenVals ps, x ≤ statMax (textLenVals ps)) ∧
    statAvg (textLenVals ps)
      = (((textLenVals ps).sum : Int) : ℚ) / ((textLenVals ps).length : ℚ) ∧
    (statMin (scoreVals batchC8) = ((-2 : Int) : WithTop Int) ∧
      statMax (scoreVals batchC8) = 10 ∧ statAvg (scoreVals batchC8) = 5) := by
  have hs : scoreVals ps ≠ [] := by
    simp [scoreVals, h]
  have hcm : commentVals ps ≠ [] := by
    simp [commentVals, h]
  have ht : titleLenVals ps ≠ [] := by
    simp [titleLenVals, h]
  have hx : textLenVals ps ≠ [] := by
    simp [textLenVals, h]
  have htpos : ∀ x ∈ titleLenVals ps, 0 ≤ x := by
    intro x hxm
    obtain ⟨p2, _, heq⟩ := List.mem_map.mp hxm
    rw [← heq]
    exact Int.natCast_nonneg _
  have hxpos : ∀ x ∈ textLenVals ps, 0 ≤ x := by
    intro x hxm
    obtain ⟨p2, _, heq⟩ := List.mem_map.mp hxm
    rw [← heq]
    exact Int.natCast_nonneg _
  refine ⟨statMin_spec _ hs, statMax_spec _, statAvg_eq _,
    statMin_spec _ hcm, statMax_spec _, statAvg_eq _,
    statMin_spec _ ht, statMax_of_nonneg _ ht htpos, statAvg_eq _,
    statMin_spec _ hx, statMax_of_nonneg _ hx hxpos, statAvg_eq _,
    by decide, by decide, by with_unfolding_all decide⟩

/-- Witness for the amended C8: the scenario batch, nonemptiness discharged
concretely. -/
theorem c8_witness :
    statMin (scoreVals batchC8) = ((-2 : Int) : WithTop Int) ∧
      statMax (scoreVals batchC8) = 10 ∧ statAvg (scoreVals batchC8) = 5 :=
  (c8_amended_stats batchC8 (by decide)).2.2.2.2.2.2.2.2.2.2.2.2

/-- C9: the failing input contains one URL matched by the extraction pattern,
but the cleaning function deletes its equals sign, so the cleaned text does
not contain the URL.  This contradicts the function's own docstring (clean
and normalize text content while preserving URLs, line 52) and dead code at
line 57 that extracts the URLs in order to preserve them: the implemented
substitution strips characters inside URLs like everywhere else. -/
theorem c9_url_not_preserved :
    findallHttp ("http://a.com/x=y".toList) = ["http://a.com/x=y".toList] ∧
      cleanText ("http://a.com/x=y".toList) = "http://a.com/xy".toList ∧
      containsSub (cleanText ("http://a.com/x=y".toList))
        ("http://a.com/x=y".toList) = false := by
  exact ⟨by decide, by decide, by decide⟩

/-- C10: at every state reachable from the freshly initialised scraper the
two tracking maps have identical key sequences (successful collection inserts
into both together, both finalization paths delete from both together), so
the tracking-start lookup done during a check cycle never fails for an
identifier present in the record map. -/
theorem c10_key_maps_in_sync (td : ℚ) (steps : List Step) :
    keysOf (runTrace td emptyState [] steps).1.postIdToContent
        = keysOf (runTrace td emptyState [] steps).1.postTrackingStart ∧
      ∀ (k : String) (r : PostRecord),
        mapLookup (runTrace td emptyState [] steps).1.postIdToContent k = some r →
        (mapLookup (runTrace td emptyState [] steps).1.postTrackingStart k).isSome := by
  have hg := runTrace_good td steps emptyState [] good_empty
  refine ⟨hg.1.1, ?_⟩
  intro k r h
  have h1 : k ∈ keysOf (runTrace td emptyState [] steps).1.postIdToContent := by
    apply mapLookup_isSome.mp
    rw [h]
    rfl
  apply mapLookup_isSome.mpr
  rw [← hg.1.1]
  exact h1

/-- Witness for C10 at a concrete one-step trace. -/
theorem c10_witness :
    (mapLookup (runTrace 86400 emptyState []
      [Step.stream post1 0 true]).1.postTrackingStart "p1").isSome :=
  (c10_key_maps_in_sync 86400 [Step.stream post1 0 true]).2 "p1" (buildRecord post1 0)
    (by decide)
